import Mathlib

/-!
Shallow embedding of bilateral_normal_integration_cupy.py (Bilateral Normal
Integration).  Arrays become functions or lists, boolean masks become Bool
valued functions, sparse COO matrices become entry functions obtained by
summing triplet contributions, and floating point numbers become elements of
an abstract field (the iterative solver part is instantiated at the reals,
since the reweighting uses the exponential function).  The conjugate gradient
routine imported from cupyx is an external collaborator and is modelled as a
function parameter of the outer loop.
-/

namespace BiNI

abbrev Cell := Nat × Nat

/-- A 2D boolean mask of shape H times W.  Reads outside the array bounds
return false, matching the zero padding used by the move functions of the
source. -/
structure Mask where
  H : Nat
  W : Nat
  valid : Nat → Nat → Bool

/-- Bounded read of a mask entry. -/
def mAt (m : Mask) (i j : Nat) : Bool :=
  decide (i < m.H) && decide (j < m.W) && m.valid i j

/-- move_left: pad one zero column on the right, drop the first column, so
entry (i, j) of the result reads entry (i, j+1). -/
def moveLeft (b : Nat → Nat → Bool) : Nat → Nat → Bool := fun i j => b i (j + 1)

/-- move_right: pad one zero column on the left, drop the last column. -/
def moveRight (b : Nat → Nat → Bool) : Nat → Nat → Bool := fun i j =>
  decide (1 ≤ j) && b i (j - 1)

/-- move_top: pad one zero row at the bottom, drop the first row. -/
def moveTop (b : Nat → Nat → Bool) : Nat → Nat → Bool := fun i j => b (i + 1) j

/-- move_bottom: pad one zero row at the top, drop the last row. -/
def moveBottom (b : Nat → Nat → Bool) : Nat → Nat → Bool := fun i j =>
  decide (1 ≤ i) && b (i - 1) j

/-- move_top_left. -/
def moveTopLeft (b : Nat → Nat → Bool) : Nat → Nat → Bool := fun i j => b (i + 1) (j + 1)

/-- move_top_right. -/
def moveTopRight (b : Nat → Nat → Bool) : Nat → Nat → Bool := fun i j =>
  decide (1 ≤ j) && b (i + 1) (j - 1)

/-- move_bottom_left. -/
def moveBottomLeft (b : Nat → Nat → Bool) : Nat → Nat → Bool := fun i j =>
  decide (1 ≤ i) && b (i - 1) (j + 1)

/-- move_bottom_right. -/
def moveBottomRight (b : Nat → Nat → Bool) : Nat → Nat → Bool := fun i j =>
  decide (1 ≤ i) && decide (1 ≤ j) && b (i - 1) (j - 1)

/-- All cells of an H times W array in row major scan order, the order in
which numpy boolean indexing enumerates selected positions. -/
def cells (H W : Nat) : List Cell :=
  (List.range H).flatMap (fun i => (List.range W).map (fun j => (i, j)))

/-- The cells where a boolean mask holds, in row major order. -/
def qualCells (m : Mask) (b : Nat → Nat → Bool) : List Cell :=
  (cells m.H m.W).filter (fun p => b p.1 p.2)

/-- The valid cells of a mask in row major order. -/
def validCells (m : Mask) : List Cell := qualCells m (mAt m)

/-- num_pixel = cp.sum(mask). -/
def numPixel (m : Mask) : Nat := (validCells m).length

/-- pixel_idx: the k-th valid cell in row major order receives index k
(pixel_idx[mask] = arange(sum(mask))). -/
def pixelIdx (m : Mask) (p : Cell) : Nat :=
  @List.indexOf Cell instBEqOfDecidableEq p (validCells m)

/-- pixel_idx[b]: gather the dense pixel indices at the positions where b
holds, in row major order. -/
def gatherIdx (m : Mask) (b : Nat → Nat → Bool) : List Nat :=
  (qualCells m b).map (pixelIdx m)

/-- int(cp.sum(b)) for a boolean mask b. -/
def maskCount (m : Mask) (b : Nat → Nat → Bool) : Nat := (qualCells m b).length

/-- v[mask]: gather a per cell quantity into a dense vector indexed by pixel
index; out of range entries read 0. -/
def gatherVec {α : Type} [Zero α] (m : Mask) (f : Cell → α) : Nat → α :=
  fun k => ((validCells m).map f).getD k 0

/-- has_left_mask = logical_and(move_right(mask), mask). -/
def hasLeftMask (m : Mask) : Nat → Nat → Bool := fun i j =>
  moveRight (mAt m) i j && mAt m i j

/-- has_right_mask = logical_and(move_left(mask), mask). -/
def hasRightMask (m : Mask) : Nat → Nat → Bool := fun i j =>
  moveLeft (mAt m) i j && mAt m i j

/-- has_bottom_mask = logical_and(move_top(mask), mask). -/
def hasBottomMask (m : Mask) : Nat → Nat → Bool := fun i j =>
  moveTop (mAt m) i j && mAt m i j

/-- has_top_mask = logical_and(move_bottom(mask), mask). -/
def hasTopMask (m : Mask) : Nat → Nat → Bool := fun i j =>
  moveBottom (mAt m) i j && mAt m i j

/-- Entry (r, c) of a COO sparse matrix given by parallel row, column and
value lists: the sum of the values of all triplets at position (r, c),
matching the duplicate summing semantics of coo_matrix. -/
def cooEntry {α : Type} [AddCommMonoid α] (rows cols : List Nat) (vals : List α)
    (r c : Nat) : α :=
  ((rows.zip (cols.zip vals)).map
    (fun t => if t.1 = r ∧ t.2.1 = c then t.2.2 else 0)).sum

/-- D_horizontal_neg before division by the step size: rows are the pixels
having a left neighbour, the value -1 sits at the left neighbour column and
the value 1 at the pixel column. -/
def dHorizontalNegEntry (α : Type) [Field α] (m : Mask) : Nat → Nat → α := fun r c =>
  cooEntry (gatherIdx m (hasLeftMask m) ++ gatherIdx m (hasLeftMask m))
    (gatherIdx m (moveLeft (hasLeftMask m)) ++ gatherIdx m (hasLeftMask m))
    (List.replicate (maskCount m (hasLeftMask m)) (-1)
      ++ List.replicate (maskCount m (hasLeftMask m)) 1) r c

/-- D_horizontal_pos before division by the step size: rows are the pixels
having a right neighbour, -1 at the pixel column, 1 at the right neighbour
column. -/
def dHorizontalPosEntry (α : Type) [Field α] (m : Mask) : Nat → Nat → α := fun r c =>
  cooEntry (gatherIdx m (hasRightMask m) ++ gatherIdx m (hasRightMask m))
    (gatherIdx m (hasRightMask m) ++ gatherIdx m (moveRight (hasRightMask m)))
    (List.replicate (maskCount m (hasRightMask m)) (-1)
      ++ List.replicate (maskCount m (hasRightMask m)) 1) r c

/-- D_vertical_pos before division by the step size: rows are the pixels
having a top neighbour, -1 at the pixel column, 1 at the top neighbour
column. -/
def dVerticalPosEntry (α : Type) [Field α] (m : Mask) : Nat → Nat → α := fun r c =>
  cooEntry (gatherIdx m (hasTopMask m) ++ gatherIdx m (hasTopMask m))
    (gatherIdx m (hasTopMask m) ++ gatherIdx m (moveTop (hasTopMask m)))
    (List.replicate (maskCount m (hasTopMask m)) (-1)
      ++ List.replicate (maskCount m (hasTopMask m)) 1) r c

/-- D_vertical_neg before division by the step size: rows are the pixels
having a bottom neighbour, -1 at the bottom neighbour column, 1 at the pixel
column. -/
def dVerticalNegEntry (α : Type) [Field α] (m : Mask) : Nat → Nat → α := fun r c =>
  cooEntry (gatherIdx m (hasBottomMask m) ++ gatherIdx m (hasBottomMask m))
    (gatherIdx m (moveBottom (hasBottomMask m)) ++ gatherIdx m (hasBottomMask m))
    (List.replicate (maskCount m (hasBottomMask m)) (-1)
      ++ List.replicate (maskCount m (hasBottomMask m)) 1) r c

/-- First component of the generate_dx_dy return value:
D_horizontal_pos / step_size. -/
def dHorizontalPos (α : Type) [Field α] (m : Mask) (step : α) : Nat → Nat → α :=
  fun r c => dHorizontalPosEntry α m r c / step

/-- Second component: D_horizontal_neg / step_size. -/
def dHorizontalNeg (α : Type) [Field α] (m : Mask) (step : α) : Nat → Nat → α :=
  fun r c => dHorizontalNegEntry α m r c / step

/-- Third component: D_vertical_pos / step_size. -/
def dVerticalPos (α : Type) [Field α] (m : Mask) (step : α) : Nat → Nat → α :=
  fun r c => dVerticalPosEntry α m r c / step

/-- Fourth component: D_vertical_neg / step_size. -/
def dVerticalNeg (α : Type) [Field α] (m : Mask) (step : α) : Nat → Nat → α :=
  fun r c => dVerticalNegEntry α m r c / step

/-! construct_facets_from -/

/-- facet_top_left_mask: product of move_top(mask), move_left(mask),
move_top_left(mask) and mask, i.e. the cells whose 2 by 2 block towards
larger row and column indices is entirely valid. -/
def facetTopLeftMask (m : Mask) : Nat → Nat → Bool := fun i j =>
  moveTop (mAt m) i j && moveLeft (mAt m) i j && moveTopLeft (mAt m) i j && mAt m i j

/-- facet_top_right_mask = move_right(facet_top_left_mask). -/
def facetTopRightMask (m : Mask) : Nat → Nat → Bool := moveRight (facetTopLeftMask m)

/-- facet_bottom_left_mask = move_bottom(facet_top_left_mask). -/
def facetBottomLeftMask (m : Mask) : Nat → Nat → Bool := moveBottom (facetTopLeftMask m)

/-- facet_bottom_right_mask = move_bottom_right(facet_top_left_mask). -/
def facetBottomRightMask (m : Mask) : Nat → Nat → Bool :=
  moveBottomRight (facetTopLeftMask m)

/-- The facet list: the k-th facet is the k-th entry of each of the four
gathered index columns, in the order top left, bottom left, bottom right,
top right.  The leading constant 4 column of the hstack (the facet size
marker consumed by pyvista) is omitted. -/
def facetsList (m : Mask) : List (Nat × Nat × Nat × Nat) :=
  (gatherIdx m (facetTopLeftMask m)).zip
    ((gatherIdx m (facetBottomLeftMask m)).zip
      ((gatherIdx m (facetBottomRightMask m)).zip
        (gatherIdx m (facetTopRightMask m))))

/-! Normal gathering and the camera model coefficients -/

/-- nx = normal_map[normal_mask, 1]. -/
def nxVec (α : Type) [Field α] (m : Mask) (nm : Nat → Nat → Fin 3 → α) : Nat → α :=
  gatherVec m (fun p => nm p.1 p.2 1)

/-- ny = normal_map[normal_mask, 0]. -/
def nyVec (α : Type) [Field α] (m : Mask) (nm : Nat → Nat → Fin 3 → α) : Nat → α :=
  gatherVec m (fun p => nm p.1 p.2 0)

/-- nz = - normal_map[normal_mask, 2]. -/
def nzVec (α : Type) [Field α] (m : Mask) (nm : Nat → Nat → Fin 3 → α) : Nat → α :=
  gatherVec m (fun p => -(nm p.1 p.2 2))

/-- The four entries of the camera intrinsic matrix read by the solver:
fx = K[0,0], fy = K[1,1], cx = K[0,2], cy = K[1,2]. -/
structure Intrin (α : Type) where
  fx : α
  fy : α
  cx : α
  cy : α

/-- Second output of cp.meshgrid(range(W), range(H)): the row index grid. -/
def xxGrid : Nat → Nat → Nat := fun i _ => i

/-- First output of cp.meshgrid(range(W), range(H)): the column index grid. -/
def yyGrid : Nat → Nat → Nat := fun _ j => j

/-- cp.flip(xx, axis=0) on an H row grid: row i reads row H - 1 - i. -/
def xxFlip (H : Nat) : Nat → Nat → Nat := fun i j => xxGrid (H - 1 - i) j

/-- uu = xx[normal_mask] - cx with xx the flipped row grid. -/
def uuVec (α : Type) [Field α] (m : Mask) (Kc : Intrin α) : Nat → α :=
  gatherVec m (fun p => (xxFlip m.H p.1 p.2 : α) - Kc.cx)

/-- vv = yy[normal_mask] - cy. -/
def vvVec (α : Type) [Field α] (m : Mask) (Kc : Intrin α) : Nat → α :=
  gatherVec m (fun p => (yyGrid p.1 p.2 : α) - Kc.cy)

/-- Diagonal of Nz_u: uu * nx + vv * ny + fx * nz in the perspective case,
nz in the orthographic case (K is None). -/
def nzUVec (α : Type) [Field α] (m : Mask) (nm : Nat → Nat → Fin 3 → α)
    (Kopt : Option (Intrin α)) : Nat → α :=
  match Kopt with
  | none => nzVec α m nm
  | some Kc => fun k =>
      uuVec α m Kc k * nxVec α m nm k + vvVec α m Kc k * nyVec α m nm k
        + Kc.fx * nzVec α m nm k

/-- Diagonal of Nz_v: uu * nx + vv * ny + fy * nz in the perspective case,
nz in the orthographic case. -/
def nzVVec (α : Type) [Field α] (m : Mask) (nm : Nat → Nat → Fin 3 → α)
    (Kopt : Option (Intrin α)) : Nat → α :=
  match Kopt with
  | none => nzVec α m nm
  | some Kc => fun k =>
      uuVec α m Kc k * nxVec α m nm k + vvVec α m Kc k * nyVec α m nm k
        + Kc.fy * nzVec α m nm k

/-! Linear system assembly.  The call site of generate_dx_dy unpacks the
tuple (D_horizontal_pos, D_horizontal_neg, D_vertical_pos, D_vertical_neg)
into the variables Dvp, Dvn, Dup, Dun, in this order. -/

/-- Dvp, the first unpacked variable, is D_horizontal_pos / step_size. -/
def Dvp (α : Type) [Field α] (m : Mask) (step : α) : Nat → Nat → α :=
  dHorizontalPos α m step

/-- Dvn, the second unpacked variable, is D_horizontal_neg / step_size. -/
def Dvn (α : Type) [Field α] (m : Mask) (step : α) : Nat → Nat → α :=
  dHorizontalNeg α m step

/-- Dup, the third unpacked variable, is D_vertical_pos / step_size. -/
def Dup (α : Type) [Field α] (m : Mask) (step : α) : Nat → Nat → α :=
  dVerticalPos α m step

/-- Dun, the fourth unpacked variable, is D_vertical_neg / step_size. -/
def Dun (α : Type) [Field α] (m : Mask) (step : α) : Nat → Nat → α :=
  dVerticalNeg α m step

/-- Multiplication by a diagonal matrix on the left: diags(d) @ A. -/
def diagMul {α : Type} [Field α] (d : Nat → α) (A : Nat → Nat → α) : Nat → Nat → α :=
  fun r c => d r * A r c

/-- A1 = Nz_u @ Dup. -/
def A1mat (α : Type) [Field α] (m : Mask) (nm : Nat → Nat → Fin 3 → α)
    (Kopt : Option (Intrin α)) (step : α) : Nat → Nat → α :=
  diagMul (nzUVec α m nm Kopt) (Dup α m step)

/-- A2 = Nz_u @ Dun. -/
def A2mat (α : Type) [Field α] (m : Mask) (nm : Nat → Nat → Fin 3 → α)
    (Kopt : Option (Intrin α)) (step : α) : Nat → Nat → α :=
  diagMul (nzUVec α m nm Kopt) (Dun α m step)

/-- A3 = Nz_v @ Dvp. -/
def A3mat (α : Type) [Field α] (m : Mask) (nm : Nat → Nat → Fin 3 → α)
    (Kopt : Option (Intrin α)) (step : α) : Nat → Nat → α :=
  diagMul (nzVVec α m nm Kopt) (Dvp α m step)

/-- A4 = Nz_v @ Dvn. -/
def A4mat (α : Type) [Field α] (m : Mask) (nm : Nat → Nat → Fin 3 → α)
    (Kopt : Option (Intrin α)) (step : α) : Nat → Nat → α :=
  diagMul (nzVVec α m nm Kopt) (Dvn α m step)

/-- Four vectors of length N concatenated into a vector of length 4N. -/
def concat4 {α : Type} (N : Nat) (v1 v2 v3 v4 : Nat → α) : Nat → α := fun r =>
  if r < N then v1 r
  else if r < 2 * N then v2 (r - N)
  else if r < 3 * N then v3 (r - 2 * N)
  else v4 (r - 3 * N)

/-- A = vstack((A1, A2, A3, A4)), a 4N by N matrix. -/
def Astack {α : Type} (N : Nat) (A1 A2 A3 A4 : Nat → Nat → α) : Nat → Nat → α :=
  fun r c =>
    if r < N then A1 r c
    else if r < 2 * N then A2 (r - N) c
    else if r < 3 * N then A3 (r - 2 * N) c
    else A4 (r - 3 * N) c

/-- b = concatenate((-nx, -nx, -ny, -ny)). -/
def bVec {α : Type} [Field α] (N : Nat) (nx ny : Nat → α) : Nat → α :=
  concat4 N (fun k => -nx k) (fun k => -nx k) (fun k => -ny k) (fun k => -ny k)

/-- Matrix vector product over column indices 0 .. n-1. -/
def matVec {α : Type} [Field α] (n : Nat) (A : Nat → Nat → α) (z : Nat → α) :
    Nat → α := fun r => ∑ c ∈ Finset.range n, A r c * z c

/-! The iteratively reweighted loop, over the reals. -/

/-- sigmoid(x, k) = 1 / (1 + exp(-k * x)). -/
noncomputable def sigmoid (x k : ℝ) : ℝ := 1 / (1 + Real.exp (-k * x))

/-- wu = sigmoid((A2 @ z) ** 2 - (A1 @ z) ** 2, k). -/
noncomputable def wuVec (N : Nat) (A1 A2 : Nat → Nat → ℝ) (z : Nat → ℝ) (k : ℝ) :
    Nat → ℝ := fun i =>
  sigmoid ((matVec N A2 z i) ^ 2 - (matVec N A1 z i) ^ 2) k

/-- wv = sigmoid((A4 @ z) ** 2 - (A3 @ z) ** 2, k). -/
noncomputable def wvVec (N : Nat) (A3 A4 : Nat → Nat → ℝ) (z : Nat → ℝ) (k : ℝ) :
    Nat → ℝ := fun i =>
  sigmoid ((matVec N A4 z i) ^ 2 - (matVec N A3 z i) ^ 2) k

/-- W = diags(concatenate((wu, 1-wu, wv, 1-wv))): the updated diagonal of the
4N by 4N weight matrix. -/
noncomputable def updateWdiag (N : Nat) (A1 A2 A3 A4 : Nat → Nat → ℝ) (z : Nat → ℝ)
    (k : ℝ) : Nat → ℝ :=
  concat4 N (wuVec N A1 A2 z k) (fun i => 1 - wuVec N A1 A2 z k i)
    (wvVec N A3 A4 z k) (fun i => 1 - wvVec N A3 A4 z k i)

/-- Diagonal of the initial weight matrix W = 0.5 * diags(ones_like(b)). -/
noncomputable def w0diag : Nat → ℝ := fun _ => 0.5

/-- The energy (A @ z - b).T @ W @ (A @ z - b) for a diagonal W, summed over
the 4N stacked residual rows. -/
noncomputable def energyQF (N : Nat) (A : Nat → Nat → ℝ) (b : Nat → ℝ)
    (Wd : Nat → ℝ) (z : Nat → ℝ) : ℝ :=
  ∑ r ∈ Finset.range (4 * N), (matVec N A z r - b r) * (Wd r * (matVec N A z r - b r))

/-- relative_energy = cp.abs(energy - energy_old) / energy_old. -/
noncomputable def relEnergy (eOld eNew : ℝ) : ℝ := |eNew - eOld| / eOld

/-- The data threaded through one iteration of the outer loop: the stacked
system, the bilateral sharpness k, the stopping tolerance, and the inner
conjugate gradient solve modelled as an external function from the current
weight diagonal and warm start to the next iterate. -/
structure LoopCtx where
  N : Nat
  A1 : Nat → Nat → ℝ
  A2 : Nat → Nat → ℝ
  A3 : Nat → Nat → ℝ
  A4 : Nat → Nat → ℝ
  A : Nat → Nat → ℝ
  b : Nat → ℝ
  kSharp : ℝ
  tol : ℝ
  solver : (Nat → ℝ) → (Nat → ℝ) → Nat → ℝ

/-- The loop state: current iterate, current weight diagonal, last computed
energy and the energy trace collected so far. -/
structure IterState where
  z : Nat → ℝ
  Wd : Nat → ℝ
  energy : ℝ
  trace : List ℝ

/-- One iteration of the outer loop (depth prior absent): inner solve, weight
update, energy recomputation, energy_list.append(energy). -/
noncomputable def iterStep (ctx : LoopCtx) (st : IterState) : IterState :=
  let z2 := ctx.solver st.Wd st.z
  let Wd2 := updateWdiag ctx.N ctx.A1 ctx.A2 ctx.A3 ctx.A4 z2 ctx.kSharp
  let e2 := energyQF ctx.N ctx.A ctx.b Wd2 z2
  ⟨z2, Wd2, e2, st.trace ++ [e2]⟩

/-- The outer loop: perform one iteration, break when
relative_energy < tol, otherwise continue until the iteration budget is
exhausted. -/
noncomputable def irlsLoop (ctx : LoopCtx) : Nat → IterState → IterState
  | 0, st => st
  | fuel + 1, st =>
      let st2 := iterStep ctx st
      if relEnergy st.energy st2.energy < ctx.tol then st2
      else irlsLoop ctx fuel st2

/-- Number of iterations the loop performs (same recursion as irlsLoop). -/
noncomputable def irlsCount (ctx : LoopCtx) : Nat → IterState → Nat
  | 0, _ => 0
  | fuel + 1, st =>
      let st2 := iterStep ctx st
      if relEnergy st.energy st2.energy < ctx.tol then 1
      else 1 + irlsCount ctx fuel st2

/-- The stacked system of bilateral_normal_integration together with the
loop parameters. -/
noncomputable def biniCtx (m : Mask) (nm : Nat → Nat → Fin 3 → ℝ)
    (Kopt : Option (Intrin ℝ)) (step kSharp tol : ℝ)
    (solver : (Nat → ℝ) → (Nat → ℝ) → Nat → ℝ) : LoopCtx where
  N := numPixel m
  A1 := A1mat ℝ m nm Kopt step
  A2 := A2mat ℝ m nm Kopt step
  A3 := A3mat ℝ m nm Kopt step
  A4 := A4mat ℝ m nm Kopt step
  A := Astack (numPixel m) (A1mat ℝ m nm Kopt step) (A2mat ℝ m nm Kopt step)
    (A3mat ℝ m nm Kopt step) (A4mat ℝ m nm Kopt step)
  b := bVec (numPixel m) (nxVec ℝ m nm) (nyVec ℝ m nm)
  kSharp := kSharp
  tol := tol
  solver := solver

/-- The state before the first iteration: z = zeros, W = 0.5 * I, energy
computed from them, empty energy_list. -/
noncomputable def biniInit (ctx : LoopCtx) : IterState :=
  ⟨fun _ => 0, w0diag, energyQF ctx.N ctx.A ctx.b w0diag (fun _ => 0), []⟩

/-- The final loop state of bilateral_normal_integration. -/
noncomputable def biniRun (m : Mask) (nm : Nat → Nat → Fin 3 → ℝ)
    (Kopt : Option (Intrin ℝ)) (step kSharp tol : ℝ) (maxIter : Nat)
    (solver : (Nat → ℝ) → (Nat → ℝ) → Nat → ℝ) : IterState :=
  irlsLoop (biniCtx m nm Kopt step kSharp tol solver) maxIter
    (biniInit (biniCtx m nm Kopt step kSharp tol solver))

/-- depth_map = nan * ones; depth_map[normal_mask] = z: valid cells read the
solved vector, cells outside the mask are undefined (none models nan). -/
noncomputable def depthMapOut (m : Mask) (st : IterState) : Nat → Nat → Option ℝ :=
  fun i j => if mAt m i j then some (st.z (pixelIdx m (i, j))) else none

/-! The depth prior fusion step (lines 250 to 253 of the source):
depth_diff = M @ (z_prior - z); depth_diff[depth_diff == 0] = nan;
offset = nanmean(depth_diff); z = z + offset.  nanmean averages the entries
that are not nan, i.e. the entries that were nonzero, and returns nan when
every entry is nan; none models that nan. -/

/-- m = depth_mask[normal_mask].astype(int). -/
def priorMaskVec (α : Type) [Field α] (m : Mask) (dmask : Nat → Nat → Bool) :
    Nat → α :=
  gatherVec m (fun p => if dmask p.1 p.2 then 1 else 0)

/-- The offset nanmean(depth_diff): the mean of the nonzero entries of
M @ (z_prior - z), or none (nan) when every entry is zero and the mean of
the empty slice is undefined. -/
def offsetOpt (α : Type) [Field α] [DecidableEq α] (N : Nat) (mv zp z : Nat → α) :
    Option α :=
  if (((List.range N).map (fun t => mv t * (zp t - z t))).filter
      (fun x => decide (¬x = 0))).length = 0
  then none
  else some ((((List.range N).map (fun t => mv t * (zp t - z t))).filter
      (fun x => decide (¬x = 0))).sum
    / (((((List.range N).map (fun t => mv t * (zp t - z t))).filter
      (fun x => decide (¬x = 0))).length : Nat) : α))

/-- z = z + offset: when the offset is nan (none) every entry of z becomes
nan, modelled by the whole updated vector being none. -/
def zShift (α : Type) [Field α] [DecidableEq α] (N : Nat) (mv zp z : Nat → α) :
    Option (Nat → α) :=
  (offsetOpt α N mv zp z).map (fun o t => z t + o)

/-! Concrete instances used by witnesses and counterexamples. -/

/-- The all true H times W mask. -/
def fullMask (H W : Nat) : Mask := ⟨H, W, fun _ _ => true⟩

/-- A mask with zero valid pixels. -/
def emptyMask : Mask := ⟨2, 2, fun _ _ => false⟩

/-- A flat normal map: the normal coordinate channels are (0, 0, -1), so the
camera space normal is (0, 0, 1). -/
def nmFlat (α : Type) [Field α] : Nat → Nat → Fin 3 → α := fun _ _ ch =>
  if ch = 2 then -1 else 0

/-- A placeholder inner solver for concrete instantiations. -/
def zeroSolver : (Nat → ℝ) → (Nat → ℝ) → Nat → ℝ := fun _ _ _ => 0

/-- A concrete depth vector taking value 0 at index 0 and 1 elsewhere. -/
def zStep01 (α : Type) [Field α] : Nat → α := fun t => if t = 0 then 0 else 1

/-- A normal map whose camera space normal is (1, 0, 0): channel 1 holds 1,
the other channels hold 0. -/
def nmX (α : Type) [Field α] : Nat → Nat → Fin 3 → α := fun _ _ ch =>
  if ch = 1 then 1 else 0

/-- Stated from the specification text, for comparison with the code (a
refinement check): the perspective Nu coefficient with pixel offsets
u = col - cx and v = row - cy, the row axis flipped, applied to the camera
space normal components. -/
def nzUVecSpec (α : Type) [Field α] (m : Mask) (nm : Nat → Nat → Fin 3 → α)
    (Kc : Intrin α) : Nat → α :=
  gatherVec m (fun p =>
    ((yyGrid p.1 p.2 : α) - Kc.cx) * nm p.1 p.2 1
      + ((xxFlip m.H p.1 p.2 : α) - Kc.cy) * nm p.1 p.2 0
      + Kc.fx * (-(nm p.1 p.2 2)))

/-! Basic facts about cells, masks and pixel indexing. -/

theorem cells_eq_product (H W : Nat) :
    cells H W = (List.range H).product (List.range W) := rfl

theorem nodup_cells (H W : Nat) : (cells H W).Nodup := by
  rw [cells_eq_product]
  exact (List.nodup_range H).product (List.nodup_range W)

theorem mem_cells {H W : Nat} {p : Cell} : p ∈ cells H W ↔ p.1 < H ∧ p.2 < W := by
  obtain ⟨i, j⟩ := p
  rw [cells_eq_product]
  simp [List.mem_product]

theorem mAt_lt {m : Mask} {i j : Nat} (h : mAt m i j = true) : i < m.H ∧ j < m.W := by
  simp only [mAt, Bool.and_eq_true, decide_eq_true_eq] at h
  exact ⟨h.1.1, h.1.2⟩

theorem mem_validCells {m : Mask} {p : Cell} :
    p ∈ validCells m ↔ mAt m p.1 p.2 = true := by
  unfold validCells qualCells
  rw [List.mem_filter]
  constructor
  · intro h; exact h.2
  · intro h; exact ⟨mem_cells.2 (mAt_lt h), h⟩

theorem nodup_validCells (m : Mask) : (validCells m).Nodup :=
  (nodup_cells m.H m.W).filter _

theorem pixelIdx_lt_numPixel {m : Mask} {p : Cell} (h : mAt m p.1 p.2 = true) :
    pixelIdx m p < numPixel m :=
  List.indexOf_lt_length.2 (mem_validCells.2 h)

theorem pixelIdx_inj {m : Mask} {p q : Cell} (hp : mAt m p.1 p.2 = true)
    (hq : mAt m q.1 q.2 = true) (h : pixelIdx m p = pixelIdx m q) : p = q :=
  (List.indexOf_inj (mem_validCells.2 hp) (mem_validCells.2 hq)).1 h

theorem gatherVec_pixelIdx {α : Type} [Zero α] {m : Mask} (f : Cell → α) {p : Cell}
    (h : mAt m p.1 p.2 = true) : gatherVec m f (pixelIdx m p) = f p := by
  have hlt : pixelIdx m p < (validCells m).length := pixelIdx_lt_numPixel h
  unfold gatherVec
  rw [List.getD_eq_getElem?_getD, List.getElem?_map,
    List.getElem?_eq_getElem hlt]
  unfold pixelIdx at hlt ⊢
  simp [List.getElem_indexOf hlt]

/-! Shift lemmas: numpy boolean gathering over a shifted mask enumerates the
shifted positions in the same row major order as the original positions,
because shifting by a fixed offset preserves row major order. -/

theorem filter_succ_map (b : Nat → Bool) (h0 : b 0 = false) (W : Nat) :
    ((List.range W).filter (fun j => b (j + 1))).map (fun j => j + 1)
      = (List.range (W + 1)).filter b := by
  induction W with
  | zero =>
      have h1 : List.range (0 + 1) = [0] := rfl
      rw [h1]
      simp [List.filter_cons, h0]
  | succ W ih =>
      rw [List.range_succ, List.filter_append, List.map_append, ih,
        List.range_succ (W + 1), List.filter_append]
      by_cases hb : b (W + 1) <;> simp [hb]

theorem filter_pred_of_shift (b : Nat → Bool) (W : Nat) (h0 : b 0 = false)
    (hW : b W = false) :
    (List.range W).filter (fun j => b (j + 1))
      = ((List.range W).filter b).map (fun j => j - 1) := by
  have h := filter_succ_map b h0 W
  rw [List.range_succ, List.filter_append] at h
  have htail : List.filter b [W] = [] := by simp [hW]
  rw [htail, List.append_nil] at h
  rw [← h, List.map_map]
  have hcomp : ((fun j => j - 1) ∘ fun j : Nat => j + 1) = id := by
    funext j
    simp
  rw [hcomp, List.map_id]

theorem filter_shiftR (b : Nat → Bool) (W : Nat)
    (hsupp : ∀ j, b j = true → j + 1 < W) :
    (List.range W).filter (fun j => decide (1 ≤ j) && b (j - 1))
      = ((List.range W).filter b).map (fun j => j + 1) := by
  have hc0 : (decide (1 ≤ 0) && b (0 - 1)) = false := by simp
  have h := filter_succ_map (fun j => decide (1 ≤ j) && b (j - 1)) hc0 W
  have hfun : (fun j => decide (1 ≤ j + 1) && b (j + 1 - 1)) = b := by
    funext j
    rw [Nat.add_sub_cancel]
    simp [Nat.le_add_left]
  rw [hfun] at h
  have hcW : (decide (1 ≤ W) && b (W - 1)) = false := by
    by_cases h1 : 1 ≤ W
    · by_cases h2 : b (W - 1) = true
      · exfalso
        have := hsupp (W - 1) h2
        omega
      · rw [Bool.not_eq_true] at h2
        simp [h2]
    · simp [h1]
  rw [List.range_succ, List.filter_append] at h
  have htail : List.filter (fun j => decide (1 ≤ j) && b (j - 1)) [W] = [] := by
    simp only [List.filter_cons, List.filter_nil, hcW]
    rfl
  rw [htail, List.append_nil] at h
  exact h.symm

theorem flatMap_range_succ {β : Type} (G : Nat → List β) (n : Nat)
    (h0 : G 0 = []) :
    (List.range (n + 1)).flatMap G = (List.range n).flatMap (fun i => G (i + 1)) := by
  rw [List.range_succ_eq_map, List.flatMap_cons, h0, List.nil_append,
    List.flatMap_map]

theorem flatMap_shift_eq {β : Type} (G : Nat → List β) (n : Nat) (h0 : G 0 = [])
    (hn : G n = []) :
    (List.range n).flatMap G = (List.range n).flatMap (fun i => G (i + 1)) := by
  cases n with
  | zero => rfl
  | succ n' =>
      rw [flatMap_range_succ G n' h0, List.range_succ, List.flatMap_append]
      simp [hn]

theorem decide_one_le_succ (i : Nat) : decide (1 ≤ i + 1) = true := by
  simp [Nat.le_add_left]

theorem filter_cells (H W : Nat) (P : Cell → Bool) :
    (cells H W).filter P
      = (List.range H).flatMap
          (fun i => ((List.range W).filter (fun j => P (i, j))).map (fun j => (i, j))) := by
  unfold cells
  rw [List.filter_flatMap]
  congr 1
  funext i
  rw [List.filter_map]
  rfl

theorem filter_cells_shiftL (H W : Nat) (b : Nat → Nat → Bool)
    (h0 : ∀ i, b i 0 = false) (hW : ∀ i, b i W = false) :
    (cells H W).filter (fun p => b p.1 (p.2 + 1))
      = ((cells H W).filter (fun p => b p.1 p.2)).map (fun p => (p.1, p.2 - 1)) := by
  rw [filter_cells, filter_cells, List.map_flatMap]
  congr 1
  funext i
  simp only [List.map_map]
  rw [filter_pred_of_shift (b i) W (h0 i) (hW i), List.map_map]
  rfl

theorem filter_cells_shiftRC (H W : Nat) (b : Nat → Nat → Bool)
    (hsupp : ∀ i j, b i j = true → j + 1 < W) :
    (cells H W).filter (fun p => decide (1 ≤ p.2) && b p.1 (p.2 - 1))
      = ((cells H W).filter (fun p => b p.1 p.2)).map (fun p => (p.1, p.2 + 1)) := by
  rw [filter_cells, filter_cells, List.map_flatMap]
  congr 1
  funext i
  simp only [List.map_map]
  rw [filter_shiftR (b i) W (fun j h => hsupp i j h), List.map_map]
  rfl

theorem filter_cells_shiftU (H W : Nat) (b : Nat → Nat → Bool)
    (h0 : ∀ j, b 0 j = false) (hH : ∀ i j, b i j = true → i < H) :
    (cells H W).filter (fun p => b (p.1 + 1) p.2)
      = ((cells H W).filter (fun p => b p.1 p.2)).map (fun p => (p.1 - 1, p.2)) := by
  have key := flatMap_shift_eq
    (fun i => List.map (fun j => (i - 1, j)) ((List.range W).filter (fun j => b i j)))
    H
    (by
      simp only
      have : (List.range W).filter (fun j => b 0 j) = [] :=
        List.filter_eq_nil_iff.2 (fun j _ => by simp [h0 j])
      rw [this, List.map_nil])
    (by
      simp only
      have : (List.range W).filter (fun j => b H j) = [] :=
        List.filter_eq_nil_iff.2 (fun j _ hj => by
          have := hH H j hj
          omega)
      rw [this, List.map_nil])
  calc (cells H W).filter (fun p => b (p.1 + 1) p.2)
      = (List.range H).flatMap
          (fun i => List.map (fun j => (i + 1 - 1, j))
            ((List.range W).filter (fun j => b (i + 1) j))) := by
        rw [filter_cells]
        rfl
    _ = ((cells H W).filter (fun p => b p.1 p.2)).map (fun p => (p.1 - 1, p.2)) := by
        rw [← key, filter_cells, List.map_flatMap]
        simp only [List.map_map]
        rfl

theorem filter_cells_shiftD (H W : Nat) (b : Nat → Nat → Bool)
    (hH : ∀ i j, b i j = true → i + 1 < H) :
    (cells H W).filter (fun p => decide (1 ≤ p.1) && b (p.1 - 1) p.2)
      = ((cells H W).filter (fun p => b p.1 p.2)).map (fun p => (p.1 + 1, p.2)) := by
  have key := flatMap_shift_eq
    (fun i => List.map (fun j => (i, j))
      ((List.range W).filter (fun j => decide (1 ≤ i) && b (i - 1) j)))
    H
    (by
      simp only
      have : (List.range W).filter (fun j => decide (1 ≤ 0) && b (0 - 1) j) = [] :=
        List.filter_eq_nil_iff.2 (fun j _ => by simp)
      rw [this, List.map_nil])
    (by
      simp only
      have : (List.range W).filter (fun j => decide (1 ≤ H) && b (H - 1) j) = [] :=
        List.filter_eq_nil_iff.2 (fun j _ hj => by
          simp only [Bool.and_eq_true, decide_eq_true_eq] at hj
          have := hH (H - 1) j hj.2
          omega)
      rw [this, List.map_nil])
  calc (cells H W).filter (fun p => decide (1 ≤ p.1) && b (p.1 - 1) p.2)
      = (List.range H).flatMap
          (fun i => List.map (fun j => (i, j))
            ((List.range W).filter (fun j => decide (1 ≤ i) && b (i - 1) j))) := by
        rw [filter_cells]
    _ = (List.range H).flatMap
          (fun i => List.map (fun j => (i + 1, j))
            ((List.range W).filter (fun j => decide (1 ≤ i + 1) && b (i + 1 - 1) j))) :=
        key
    _ = ((cells H W).filter (fun p => b p.1 p.2)).map (fun p => (p.1 + 1, p.2)) := by
        simp only [decide_one_le_succ, Bool.true_and, Nat.add_sub_cancel]
        rw [filter_cells, List.map_flatMap]
        simp only [List.map_map]
        rfl

theorem filter_cells_shiftDR (H W : Nat) (b : Nat → Nat → Bool)
    (hH : ∀ i j, b i j = true → i + 1 < H) (hW : ∀ i j, b i j = true → j + 1 < W) :
    (cells H W).filter
        (fun p => decide (1 ≤ p.1) && decide (1 ≤ p.2) && b (p.1 - 1) (p.2 - 1))
      = ((cells H W).filter (fun p => b p.1 p.2)).map (fun p => (p.1 + 1, p.2 + 1)) := by
  have hassoc : (fun p : Cell =>
      decide (1 ≤ p.1) && decide (1 ≤ p.2) && b (p.1 - 1) (p.2 - 1))
      = (fun p : Cell =>
        decide (1 ≤ p.1) && (decide (1 ≤ p.2) && b (p.1 - 1) (p.2 - 1))) := by
    funext p
    rw [Bool.and_assoc]
  rw [hassoc]
  have hD := filter_cells_shiftD H W (fun i j => decide (1 ≤ j) && b i (j - 1))
    (fun i j hj => by
      simp only [Bool.and_eq_true, decide_eq_true_eq] at hj
      exact hH i (j - 1) hj.2)
  rw [hD]
  have hR := filter_cells_shiftRC H W b hW
  rw [hR, List.map_map]
  rfl

/-! COO matrix machinery: a triplet list built from two blocks of rows in one
to one correspondence with a list of qualifying cells. -/

theorem sum_map_eq_of_mem {β α : Type} [AddCommMonoid α] (F : β → α) (l : List β)
    (p0 : β) (h0 : p0 ∈ l) (hl : l.Nodup) (hz : ∀ p ∈ l, p ≠ p0 → F p = 0) :
    (l.map F).sum = F p0 := by
  induction l with
  | nil => cases h0
  | cons a t ih =>
      rw [List.map_cons, List.sum_cons]
      rcases List.mem_cons.1 h0 with heq | hmem
      · subst heq
        have htail : (t.map F).sum = 0 := by
          apply List.sum_eq_zero
          intro x hx
          rcases List.mem_map.1 hx with ⟨p, hp, rfl⟩
          exact hz p (List.mem_cons_of_mem _ hp)
            (fun hpa => (List.nodup_cons.1 hl).1 (hpa ▸ hp))
        rw [htail, add_zero]
      · have hat : a ∉ t := (List.nodup_cons.1 hl).1
        have ha : F a = 0 := by
          apply hz a (List.mem_cons_self a t)
          intro hap
          exact hat (hap ▸ hmem)
        rw [ha, zero_add]
        exact ih hmem (List.nodup_cons.1 hl).2
          (fun p hp => hz p (List.mem_cons_of_mem _ hp))

theorem sum_map_eq_zero {β α : Type} [AddCommMonoid α] (F : β → α) (l : List β)
    (hz : ∀ p ∈ l, F p = 0) : (l.map F).sum = 0 := by
  apply List.sum_eq_zero
  intro x hx
  rcases List.mem_map.1 hx with ⟨p, hp, rfl⟩
  exact hz p hp

theorem cooEntry_two_blocks {α : Type} [AddCommMonoid α] (q : List Cell)
    (f g1 g2 : Cell → Nat) (a b : α) (r c : Nat) :
    cooEntry (q.map f ++ q.map f) (q.map g1 ++ q.map g2)
      (List.replicate q.length a ++ List.replicate q.length b) r c
      = (q.map (fun p => if f p = r ∧ g1 p = c then a else 0)).sum
        + (q.map (fun p => if f p = r ∧ g2 p = c then b else 0)).sum := by
  unfold cooEntry
  rw [List.zip_append (by simp), List.zip_append (by simp), List.map_append,
    List.sum_append]
  congr 1
  · rw [← List.map_const q a, List.zip_map', List.zip_map', List.map_map]
    rfl
  · rw [← List.map_const q b, List.zip_map', List.zip_map', List.map_map]
    rfl

theorem mem_qualCells {m : Mask} {b : Nat → Nat → Bool} {p : Cell}
    (hvalid : b p.1 p.2 = true → mAt m p.1 p.2 = true) :
    p ∈ qualCells m b ↔ b p.1 p.2 = true := by
  unfold qualCells
  rw [List.mem_filter]
  constructor
  · intro h; exact h.2
  · intro h; exact ⟨mem_cells.2 (mAt_lt (hvalid h)), h⟩

theorem nodup_qualCells (m : Mask) (b : Nat → Nat → Bool) :
    (qualCells m b).Nodup := (nodup_cells m.H m.W).filter _

theorem mem_qualCells_qual {m : Mask} {b : Nat → Nat → Bool} {p : Cell}
    (hp : p ∈ qualCells m b) : b p.1 p.2 = true := (List.mem_filter.1 hp).2

/-! Facts about the four neighbour masks. -/

theorem hasLeftMask_elim {m : Mask} {i j : Nat} (h : hasLeftMask m i j = true) :
    mAt m i j = true ∧ mAt m i (j - 1) = true ∧ 1 ≤ j := by
  simp only [hasLeftMask, moveRight, Bool.and_eq_true, decide_eq_true_eq] at h
  exact ⟨h.2, h.1.2, h.1.1⟩

theorem hasRightMask_elim {m : Mask} {i j : Nat} (h : hasRightMask m i j = true) :
    mAt m i j = true ∧ mAt m i (j + 1) = true := by
  simp only [hasRightMask, moveLeft, Bool.and_eq_true] at h
  exact ⟨h.2, h.1⟩

theorem hasTopMask_elim {m : Mask} {i j : Nat} (h : hasTopMask m i j = true) :
    mAt m i j = true ∧ mAt m (i - 1) j = true ∧ 1 ≤ i := by
  simp only [hasTopMask, moveBottom, Bool.and_eq_true, decide_eq_true_eq] at h
  exact ⟨h.2, h.1.2, h.1.1⟩

theorem hasBottomMask_elim {m : Mask} {i j : Nat} (h : hasBottomMask m i j = true) :
    mAt m i j = true ∧ mAt m (i + 1) j = true := by
  simp only [hasBottomMask, moveTop, Bool.and_eq_true] at h
  exact ⟨h.2, h.1⟩

theorem facetTopLeftMask_elim {m : Mask} {i j : Nat}
    (h : facetTopLeftMask m i j = true) :
    mAt m i j = true ∧ mAt m (i + 1) j = true ∧ mAt m i (j + 1) = true
      ∧ mAt m (i + 1) (j + 1) = true := by
  simp only [facetTopLeftMask, moveTop, moveLeft, moveTopLeft,
    Bool.and_eq_true] at h
  exact ⟨h.2, h.1.1.1, h.1.1.2, h.1.2⟩

/-! The four shifted gathers enumerate the neighbours of the qualifying
pixels in the same order as the qualifying pixels themselves. -/

theorem gather_moveLeft_hasLeft (m : Mask) :
    gatherIdx m (moveLeft (hasLeftMask m))
      = (qualCells m (hasLeftMask m)).map (fun p => pixelIdx m (p.1, p.2 - 1)) := by
  unfold gatherIdx qualCells
  simp only [moveLeft]
  rw [filter_cells_shiftL m.H m.W (hasLeftMask m)
    (fun i => by simp [hasLeftMask, moveRight])
    (fun i => by simp [hasLeftMask, mAt]), List.map_map]
  rfl

theorem gather_moveRight_hasRight (m : Mask) :
    gatherIdx m (moveRight (hasRightMask m))
      = (qualCells m (hasRightMask m)).map (fun p => pixelIdx m (p.1, p.2 + 1)) := by
  unfold gatherIdx qualCells
  simp only [moveRight]
  rw [filter_cells_shiftRC m.H m.W (hasRightMask m)
    (fun i j hj => (mAt_lt (hasRightMask_elim hj).2).2), List.map_map]
  rfl

theorem gather_moveTop_hasTop (m : Mask) :
    gatherIdx m (moveTop (hasTopMask m))
      = (qualCells m (hasTopMask m)).map (fun p => pixelIdx m (p.1 - 1, p.2)) := by
  unfold gatherIdx qualCells
  simp only [moveTop]
  rw [filter_cells_shiftU m.H m.W (hasTopMask m)
    (fun j => by simp [hasTopMask, moveBottom])
    (fun i j hj => (mAt_lt (hasTopMask_elim hj).1).1), List.map_map]
  rfl

theorem gather_moveBottom_hasBottom (m : Mask) :
    gatherIdx m (moveBottom (hasBottomMask m))
      = (qualCells m (hasBottomMask m)).map (fun p => pixelIdx m (p.1 + 1, p.2)) := by
  unfold gatherIdx qualCells
  simp only [moveBottom]
  rw [filter_cells_shiftD m.H m.W (hasBottomMask m)
    (fun i j hj => (mAt_lt (hasBottomMask_elim hj).2).1), List.map_map]
  rfl

theorem gather_moveRight_facet (m : Mask) :
    gatherIdx m (moveRight (facetTopLeftMask m))
      = (qualCells m (facetTopLeftMask m)).map (fun p => pixelIdx m (p.1, p.2 + 1)) := by
  unfold gatherIdx qualCells
  simp only [moveRight]
  rw [filter_cells_shiftRC m.H m.W (facetTopLeftMask m)
    (fun i j hj => (mAt_lt (facetTopLeftMask_elim hj).2.2.1).2), List.map_map]
  rfl

theorem gather_moveBottom_facet (m : Mask) :
    gatherIdx m (moveBottom (facetTopLeftMask m))
      = (qualCells m (facetTopLeftMask m)).map (fun p => pixelIdx m (p.1 + 1, p.2)) := by
  unfold gatherIdx qualCells
  simp only [moveBottom]
  rw [filter_cells_shiftD m.H m.W (facetTopLeftMask m)
    (fun i j hj => (mAt_lt (facetTopLeftMask_elim hj).2.1).1), List.map_map]
  rfl

/-! Row structure of the COO sums. -/

theorem rowSum_eq {α : Type} [AddCommMonoid α] (m : Mask) (b : Nat → Nat → Bool)
    (hvalid : ∀ p : Cell, b p.1 p.2 = true → mAt m p.1 p.2 = true)
    (gcol : Cell → Nat) (a : α) {p0 : Cell} (h0 : b p0.1 p0.2 = true) (c : Nat) :
    ((qualCells m b).map
      (fun p => if pixelIdx m p = pixelIdx m p0 ∧ gcol p = c then a else 0)).sum
      = if gcol p0 = c then a else 0 := by
  have hmem : p0 ∈ qualCells m b := (mem_qualCells (fun _ => hvalid p0 h0)).2 h0
  have hres := sum_map_eq_of_mem
    (fun p => if pixelIdx m p = pixelIdx m p0 ∧ gcol p = c then a else 0)
    (qualCells m b) p0 hmem (nodup_qualCells m b) ?_
  · rw [hres]
    simp
  · intro p hp hne
    by_cases hc : pixelIdx m p = pixelIdx m p0 ∧ gcol p = c
    · exact absurd
        (pixelIdx_inj (hvalid p (mem_qualCells_qual hp)) (hvalid p0 h0) hc.1) hne
    · simp [hc]

theorem rowSum_zero {α : Type} [AddCommMonoid α] (m : Mask) (b : Nat → Nat → Bool)
    (gcol : Cell → Nat) (a : α) {r : Nat}
    (hno : ∀ p ∈ qualCells m b, pixelIdx m p ≠ r) (c : Nat) :
    ((qualCells m b).map
      (fun p => if pixelIdx m p = r ∧ gcol p = c then a else 0)).sum = 0 := by
  apply sum_map_eq_zero
  intro p hp
  have hor := hno p hp
  simp [hor]

theorem no_row_of_not_qual {m : Mask} {b : Nat → Nat → Bool}
    (hvalid : ∀ p : Cell, b p.1 p.2 = true → mAt m p.1 p.2 = true) {p : Cell}
    (hm : mAt m p.1 p.2 = true) (hnq : b p.1 p.2 = false) :
    ∀ q ∈ qualCells m b, pixelIdx m q ≠ pixelIdx m p := by
  intro q hq heq
  have hb := mem_qualCells_qual hq
  have hqp := pixelIdx_inj (hvalid q hb) hm heq
  rw [hqp] at hb
  rw [hb] at hnq
  cases hnq

theorem ite_eq_comm {α : Type} (u v : Nat) (w : α) [Zero α] :
    (if u = v then w else (0 : α)) = if v = u then w else 0 := by
  by_cases h : u = v
  · subst h; rfl
  · rw [if_neg h, if_neg (fun hh => h hh.symm)]

theorem matVec_two {α : Type} [Field α] (n : Nat) (A : Nat → Nat → α) (z : Nat → α)
    (r c1 c2 : Nat) (v1 v2 : α) (h1 : c1 < n) (h2 : c2 < n)
    (hrow : ∀ c, A r c = (if c1 = c then v1 else 0) + (if c2 = c then v2 else 0)) :
    matVec n A z r = v1 * z c1 + v2 * z c2 := by
  have hsplit : ∀ c, A r c * z c
      = (if c = c1 then v1 * z c else 0) + (if c = c2 then v2 * z c else 0) := by
    intro c
    rw [hrow c, add_mul, ite_eq_comm c1 c v1, ite_eq_comm c2 c v2, ite_mul, ite_mul,
      zero_mul]
  calc matVec n A z r
      = ∑ c ∈ Finset.range n,
          ((if c = c1 then v1 * z c else 0) + (if c = c2 then v2 * z c else 0)) :=
        Finset.sum_congr rfl (fun c _ => hsplit c)
    _ = v1 * z c1 + v2 * z c2 := by
        rw [Finset.sum_add_distrib, Finset.sum_ite_eq' (Finset.range n) c1
          (fun c => v1 * z c), Finset.sum_ite_eq' (Finset.range n) c2
          (fun c => v2 * z c), if_pos (Finset.mem_range.2 h1),
          if_pos (Finset.mem_range.2 h2)]

theorem gather_moveBottomRight_facet (m : Mask) :
    gatherIdx m (moveBottomRight (facetTopLeftMask m))
      = (qualCells m (facetTopLeftMask m)).map
          (fun p => pixelIdx m (p.1 + 1, p.2 + 1)) := by
  unfold gatherIdx qualCells
  simp only [moveBottomRight]
  rw [filter_cells_shiftDR m.H m.W (facetTopLeftMask m)
    (fun i j hj => (mAt_lt (facetTopLeftMask_elim hj).2.1).1)
    (fun i j hj => (mAt_lt (facetTopLeftMask_elim hj).2.2.1).2), List.map_map]
  rfl

/-! Row characterization of D_horizontal_neg. -/

theorem dHorizontalNegEntry_eq (α : Type) [Field α] (m : Mask) (r c : Nat) :
    dHorizontalNegEntry α m r c
      = ((qualCells m (hasLeftMask m)).map
          (fun p => if pixelIdx m p = r ∧ pixelIdx m (p.1, p.2 - 1) = c
            then (-1 : α) else 0)).sum
        + ((qualCells m (hasLeftMask m)).map
          (fun p => if pixelIdx m p = r ∧ pixelIdx m p = c then (1 : α) else 0)).sum := by
  unfold dHorizontalNegEntry
  rw [gather_moveLeft_hasLeft]
  exact cooEntry_two_blocks (qualCells m (hasLeftMask m)) (pixelIdx m)
    (fun p => pixelIdx m (p.1, p.2 - 1)) (pixelIdx m) (-1) 1 r c

theorem dHorizontalNeg_row {α : Type} [Field α] (m : Mask) (step : α) {p : Cell}
    (hp : hasLeftMask m p.1 p.2 = true) (c : Nat) :
    dHorizontalNeg α m step (pixelIdx m p) c
      = (if pixelIdx m (p.1, p.2 - 1) = c then -1 / step else 0)
        + (if pixelIdx m p = c then 1 / step else 0) := by
  unfold dHorizontalNeg
  rw [dHorizontalNegEntry_eq,
    rowSum_eq m (hasLeftMask m) (fun q h => (hasLeftMask_elim h).1)
      (fun q => pixelIdx m (q.1, q.2 - 1)) (-1) hp c,
    rowSum_eq m (hasLeftMask m) (fun q h => (hasLeftMask_elim h).1)
      (fun q => pixelIdx m q) 1 hp c,
    add_div, apply_ite (fun x : α => x / step), apply_ite (fun x : α => x / step)]
  simp [zero_div]

theorem dHorizontalNeg_row_zero {α : Type} [Field α] (m : Mask) (step : α) {r : Nat}
    (hno : ∀ q ∈ qualCells m (hasLeftMask m), pixelIdx m q ≠ r) (c : Nat) :
    dHorizontalNeg α m step r c = 0 := by
  unfold dHorizontalNeg
  rw [dHorizontalNegEntry_eq,
    rowSum_zero m (hasLeftMask m) (fun q => pixelIdx m (q.1, q.2 - 1)) (-1) hno c,
    rowSum_zero m (hasLeftMask m) (fun q => pixelIdx m q) 1 hno c]
  simp

theorem dHorizontalNeg_two {α : Type} [Field α] (m : Mask) (step : α) (r : Nat) :
    ∃ c1 c2, ∀ c, dHorizontalNeg α m step r c ≠ 0 → c = c1 ∨ c = c2 := by
  by_cases hex : ∃ p ∈ qualCells m (hasLeftMask m), pixelIdx m p = r
  · obtain ⟨p0, hp0, hidx⟩ := hex
    refine ⟨pixelIdx m (p0.1, p0.2 - 1), pixelIdx m p0, ?_⟩
    intro c hc
    subst hidx
    rw [dHorizontalNeg_row m step (mem_qualCells_qual hp0) c] at hc
    by_contra hcon
    push_neg at hcon
    rw [if_neg (fun h => hcon.1 h.symm), if_neg (fun h => hcon.2 h.symm),
      add_zero] at hc
    exact hc rfl
  · refine ⟨0, 0, ?_⟩
    intro c hc
    exact absurd (dHorizontalNeg_row_zero m step
      (fun q hq heq => hex ⟨q, hq, heq⟩) c) hc

/-! Row characterization of D_horizontal_pos. -/

theorem dHorizontalPosEntry_eq (α : Type) [Field α] (m : Mask) (r c : Nat) :
    dHorizontalPosEntry α m r c
      = ((qualCells m (hasRightMask m)).map
          (fun p => if pixelIdx m p = r ∧ pixelIdx m p = c then (-1 : α) else 0)).sum
        + ((qualCells m (hasRightMask m)).map
          (fun p => if pixelIdx m p = r ∧ pixelIdx m (p.1, p.2 + 1) = c
            then (1 : α) else 0)).sum := by
  unfold dHorizontalPosEntry
  rw [gather_moveRight_hasRight]
  exact cooEntry_two_blocks (qualCells m (hasRightMask m)) (pixelIdx m)
    (pixelIdx m) (fun p => pixelIdx m (p.1, p.2 + 1)) (-1) 1 r c

theorem dHorizontalPos_row {α : Type} [Field α] (m : Mask) (step : α) {p : Cell}
    (hp : hasRightMask m p.1 p.2 = true) (c : Nat) :
    dHorizontalPos α m step (pixelIdx m p) c
      = (if pixelIdx m p = c then -1 / step else 0)
        + (if pixelIdx m (p.1, p.2 + 1) = c then 1 / step else 0) := by
  unfold dHorizontalPos
  rw [dHorizontalPosEntry_eq,
    rowSum_eq m (hasRightMask m) (fun q h => (hasRightMask_elim h).1)
      (fun q => pixelIdx m q) (-1) hp c,
    rowSum_eq m (hasRightMask m) (fun q h => (hasRightMask_elim h).1)
      (fun q => pixelIdx m (q.1, q.2 + 1)) 1 hp c,
    add_div, apply_ite (fun x : α => x / step), apply_ite (fun x : α => x / step)]
  simp [zero_div]

theorem dHorizontalPos_row_zero {α : Type} [Field α] (m : Mask) (step : α) {r : Nat}
    (hno : ∀ q ∈ qualCells m (hasRightMask m), pixelIdx m q ≠ r) (c : Nat) :
    dHorizontalPos α m step r c = 0 := by
  unfold dHorizontalPos
  rw [dHorizontalPosEntry_eq,
    rowSum_zero m (hasRightMask m) (fun q => pixelIdx m q) (-1) hno c,
    rowSum_zero m (hasRightMask m) (fun q => pixelIdx m (q.1, q.2 + 1)) 1 hno c]
  simp

theorem dHorizontalPos_two {α : Type} [Field α] (m : Mask) (step : α) (r : Nat) :
    ∃ c1 c2, ∀ c, dHorizontalPos α m step r c ≠ 0 → c = c1 ∨ c = c2 := by
  by_cases hex : ∃ p ∈ qualCells m (hasRightMask m), pixelIdx m p = r
  · obtain ⟨p0, hp0, hidx⟩ := hex
    refine ⟨pixelIdx m p0, pixelIdx m (p0.1, p0.2 + 1), ?_⟩
    intro c hc
    subst hidx
    rw [dHorizontalPos_row m step (mem_qualCells_qual hp0) c] at hc
    by_contra hcon
    push_neg at hcon
    rw [if_neg (fun h => hcon.1 h.symm), if_neg (fun h => hcon.2 h.symm),
      add_zero] at hc
    exact hc rfl
  · refine ⟨0, 0, ?_⟩
    intro c hc
    exact absurd (dHorizontalPos_row_zero m step
      (fun q hq heq => hex ⟨q, hq, heq⟩) c) hc

/-! Row characterization of D_vertical_pos. -/

theorem dVerticalPosEntry_eq (α : Type) [Field α] (m : Mask) (r c : Nat) :
    dVerticalPosEntry α m r c
      = ((qualCells m (hasTopMask m)).map
          (fun p => if pixelIdx m p = r ∧ pixelIdx m p = c then (-1 : α) else 0)).sum
        + ((qualCells m (hasTopMask m)).map
          (fun p => if pixelIdx m p = r ∧ pixelIdx m (p.1 - 1, p.2) = c
            then (1 : α) else 0)).sum := by
  unfold dVerticalPosEntry
  rw [gather_moveTop_hasTop]
  exact cooEntry_two_blocks (qualCells m (hasTopMask m)) (pixelIdx m)
    (pixelIdx m) (fun p => pixelIdx m (p.1 - 1, p.2)) (-1) 1 r c

theorem dVerticalPos_row {α : Type} [Field α] (m : Mask) (step : α) {p : Cell}
    (hp : hasTopMask m p.1 p.2 = true) (c : Nat) :
    dVerticalPos α m step (pixelIdx m p) c
      = (if pixelIdx m p = c then -1 / step else 0)
        + (if pixelIdx m (p.1 - 1, p.2) = c then 1 / step else 0) := by
  unfold dVerticalPos
  rw [dVerticalPosEntry_eq,
    rowSum_eq m (hasTopMask m) (fun q h => (hasTopMask_elim h).1)
      (fun q => pixelIdx m q) (-1) hp c,
    rowSum_eq m (hasTopMask m) (fun q h => (hasTopMask_elim h).1)
      (fun q => pixelIdx m (q.1 - 1, q.2)) 1 hp c,
    add_div, apply_ite (fun x : α => x / step), apply_ite (fun x : α => x / step)]
  simp [zero_div]

theorem dVerticalPos_row_zero {α : Type} [Field α] (m : Mask) (step : α) {r : Nat}
    (hno : ∀ q ∈ qualCells m (hasTopMask m), pixelIdx m q ≠ r) (c : Nat) :
    dVerticalPos α m step r c = 0 := by
  unfold dVerticalPos
  rw [dVerticalPosEntry_eq,
    rowSum_zero m (hasTopMask m) (fun q => pixelIdx m q) (-1) hno c,
    rowSum_zero m (hasTopMask m) (fun q => pixelIdx m (q.1 - 1, q.2)) 1 hno c]
  simp

theorem dVerticalPos_two {α : Type} [Field α] (m : Mask) (step : α) (r : Nat) :
    ∃ c1 c2, ∀ c, dVerticalPos α m step r c ≠ 0 → c = c1 ∨ c = c2 := by
  by_cases hex : ∃ p ∈ qualCells m (hasTopMask m), pixelIdx m p = r
  · obtain ⟨p0, hp0, hidx⟩ := hex
    refine ⟨pixelIdx m p0, pixelIdx m (p0.1 - 1, p0.2), ?_⟩
    intro c hc
    subst hidx
    rw [dVerticalPos_row m step (mem_qualCells_qual hp0) c] at hc
    by_contra hcon
    push_neg at hcon
    rw [if_neg (fun h => hcon.1 h.symm), if_neg (fun h => hcon.2 h.symm),
      add_zero] at hc
    exact hc rfl
  · refine ⟨0, 0, ?_⟩
    intro c hc
    exact absurd (dVerticalPos_row_zero m step
      (fun q hq heq => hex ⟨q, hq, heq⟩) c) hc

/-! Row characterization of D_vertical_neg. -/

theorem dVerticalNegEntry_eq (α : Type) [Field α] (m : Mask) (r c : Nat) :
    dVerticalNegEntry α m r c
      = ((qualCells m (hasBottomMask m)).map
          (fun p => if pixelIdx m p = r ∧ pixelIdx m (p.1 + 1, p.2) = c
            then (-1 : α) else 0)).sum
        + ((qualCells m (hasBottomMask m)).map
          (fun p => if pixelIdx m p = r ∧ pixelIdx m p = c then (1 : α) else 0)).sum := by
  unfold dVerticalNegEntry
  rw [gather_moveBottom_hasBottom]
  exact cooEntry_two_blocks (qualCells m (hasBottomMask m)) (pixelIdx m)
    (fun p => pixelIdx m (p.1 + 1, p.2)) (pixelIdx m) (-1) 1 r c

theorem dVerticalNeg_row {α : Type} [Field α] (m : Mask) (step : α) {p : Cell}
    (hp : hasBottomMask m p.1 p.2 = true) (c : Nat) :
    dVerticalNeg α m step (pixelIdx m p) c
      = (if pixelIdx m (p.1 + 1, p.2) = c then -1 / step else 0)
        + (if pixelIdx m p = c then 1 / step else 0) := by
  unfold dVerticalNeg
  rw [dVerticalNegEntry_eq,
    rowSum_eq m (hasBottomMask m) (fun q h => (hasBottomMask_elim h).1)
      (fun q => pixelIdx m (q.1 + 1, q.2)) (-1) hp c,
    rowSum_eq m (hasBottomMask m) (fun q h => (hasBottomMask_elim h).1)
      (fun q => pixelIdx m q) 1 hp c,
    add_div, apply_ite (fun x : α => x / step), apply_ite (fun x : α => x / step)]
  simp [zero_div]

theorem dVerticalNeg_row_zero {α : Type} [Field α] (m : Mask) (step : α) {r : Nat}
    (hno : ∀ q ∈ qualCells m (hasBottomMask m), pixelIdx m q ≠ r) (c : Nat) :
    dVerticalNeg α m step r c = 0 := by
  unfold dVerticalNeg
  rw [dVerticalNegEntry_eq,
    rowSum_zero m (hasBottomMask m) (fun q => pixelIdx m (q.1 + 1, q.2)) (-1) hno c,
    rowSum_zero m (hasBottomMask m) (fun q => pixelIdx m q) 1 hno c]
  simp

theorem dVerticalNeg_two {α : Type} [Field α] (m : Mask) (step : α) (r : Nat) :
    ∃ c1 c2, ∀ c, dVerticalNeg α m step r c ≠ 0 → c = c1 ∨ c = c2 := by
  by_cases hex : ∃ p ∈ qualCells m (hasBottomMask m), pixelIdx m p = r
  · obtain ⟨p0, hp0, hidx⟩ := hex
    refine ⟨pixelIdx m (p0.1 + 1, p0.2), pixelIdx m p0, ?_⟩
    intro c hc
    subst hidx
    rw [dVerticalNeg_row m step (mem_qualCells_qual hp0) c] at hc
    by_contra hcon
    push_neg at hcon
    rw [if_neg (fun h => hcon.1 h.symm), if_neg (fun h => hcon.2 h.symm),
      add_zero] at hc
    exact hc rfl
  · refine ⟨0, 0, ?_⟩
    intro c hc
    exact absurd (dVerticalNeg_row_zero m step
      (fun q hq heq => hex ⟨q, hq, heq⟩) c) hc

/-! Applying the operators to a linear ramp depth field on a fully connected
rectangular mask. -/

theorem mAt_fullMask {H W i j : Nat} (hi : i < H) (hj : j < W) :
    mAt (fullMask H W) i j = true := by
  simp [mAt, fullMask, hi, hj]

theorem ramp_dHorizontalPos (α : Type) [Field α] (H W : Nat) (step a bb cc : α)
    {p : Cell} (h1 : p.1 < H) (h2 : p.2 + 1 < W) :
    matVec (numPixel (fullMask H W)) (dHorizontalPos α (fullMask H W) step)
      (gatherVec (fullMask H W) (fun q => a * (q.1 : α) + bb * (q.2 : α) + cc))
      (pixelIdx (fullMask H W) p) = bb / step := by
  have hmp : mAt (fullMask H W) p.1 p.2 = true := mAt_fullMask h1 (by omega)
  have hmr : mAt (fullMask H W) p.1 (p.2 + 1) = true := mAt_fullMask h1 h2
  have hqual : hasRightMask (fullMask H W) p.1 p.2 = true := by
    simp [hasRightMask, moveLeft, hmp, hmr]
  rw [matVec_two (numPixel (fullMask H W)) _ _ _ (pixelIdx (fullMask H W) p)
    (pixelIdx (fullMask H W) (p.1, p.2 + 1)) (-1 / step) (1 / step)
    (pixelIdx_lt_numPixel hmp) (pixelIdx_lt_numPixel hmr)
    (fun c => dHorizontalPos_row (fullMask H W) step hqual c),
    gatherVec_pixelIdx _ hmp, gatherVec_pixelIdx _ hmr]
  push_cast
  ring

theorem ramp_dHorizontalNeg (α : Type) [Field α] (H W : Nat) (step a bb cc : α)
    {p : Cell} (h1 : p.1 < H) (h2 : 1 ≤ p.2) (h3 : p.2 < W) :
    matVec (numPixel (fullMask H W)) (dHorizontalNeg α (fullMask H W) step)
      (gatherVec (fullMask H W) (fun q => a * (q.1 : α) + bb * (q.2 : α) + cc))
      (pixelIdx (fullMask H W) p) = bb / step := by
  have hmp : mAt (fullMask H W) p.1 p.2 = true := mAt_fullMask h1 h3
  have hml : mAt (fullMask H W) p.1 (p.2 - 1) = true := mAt_fullMask h1 (by omega)
  have hqual : hasLeftMask (fullMask H W) p.1 p.2 = true := by
    simp [hasLeftMask, moveRight, hmp, hml, h2]
  rw [matVec_two (numPixel (fullMask H W)) _ _ _
    (pixelIdx (fullMask H W) (p.1, p.2 - 1)) (pixelIdx (fullMask H W) p)
    (-1 / step) (1 / step) (pixelIdx_lt_numPixel hml) (pixelIdx_lt_numPixel hmp)
    (fun c => dHorizontalNeg_row (fullMask H W) step hqual c),
    gatherVec_pixelIdx _ hml, gatherVec_pixelIdx _ hmp]
  push_cast [Nat.cast_sub h2]
  ring

theorem ramp_dVerticalPos (α : Type) [Field α] (H W : Nat) (step a bb cc : α)
    {p : Cell} (h1 : 1 ≤ p.1) (h2 : p.1 < H) (h3 : p.2 < W) :
    matVec (numPixel (fullMask H W)) (dVerticalPos α (fullMask H W) step)
      (gatherVec (fullMask H W) (fun q => a * (q.1 : α) + bb * (q.2 : α) + cc))
      (pixelIdx (fullMask H W) p) = -a / step := by
  have hmp : mAt (fullMask H W) p.1 p.2 = true := mAt_fullMask h2 h3
  have hmt : mAt (fullMask H W) (p.1 - 1) p.2 = true := mAt_fullMask (by omega) h3
  have hqual : hasTopMask (fullMask H W) p.1 p.2 = true := by
    simp [hasTopMask, moveBottom, hmp, hmt, h1]
  rw [matVec_two (numPixel (fullMask H W)) _ _ _ (pixelIdx (fullMask H W) p)
    (pixelIdx (fullMask H W) (p.1 - 1, p.2)) (-1 / step) (1 / step)
    (pixelIdx_lt_numPixel hmp) (pixelIdx_lt_numPixel hmt)
    (fun c => dVerticalPos_row (fullMask H W) step hqual c),
    gatherVec_pixelIdx _ hmp, gatherVec_pixelIdx _ hmt]
  push_cast [Nat.cast_sub h1]
  ring

theorem ramp_dVerticalNeg (α : Type) [Field α] (H W : Nat) (step a bb cc : α)
    {p : Cell} (h1 : p.1 + 1 < H) (h2 : p.2 < W) :
    matVec (numPixel (fullMask H W)) (dVerticalNeg α (fullMask H W) step)
      (gatherVec (fullMask H W) (fun q => a * (q.1 : α) + bb * (q.2 : α) + cc))
      (pixelIdx (fullMask H W) p) = -a / step := by
  have hmp : mAt (fullMask H W) p.1 p.2 = true := mAt_fullMask (by omega) h2
  have hmb : mAt (fullMask H W) (p.1 + 1) p.2 = true := mAt_fullMask h1 h2
  have hqual : hasBottomMask (fullMask H W) p.1 p.2 = true := by
    simp [hasBottomMask, moveTop, hmp, hmb]
  rw [matVec_two (numPixel (fullMask H W)) _ _ _
    (pixelIdx (fullMask H W) (p.1 + 1, p.2)) (pixelIdx (fullMask H W) p)
    (-1 / step) (1 / step) (pixelIdx_lt_numPixel hmb) (pixelIdx_lt_numPixel hmp)
    (fun c => dVerticalNeg_row (fullMask H W) step hqual c),
    gatherVec_pixelIdx _ hmb, gatherVec_pixelIdx _ hmp]
  push_cast
  ring

/-- C5: for every mask, each of the four one sided difference operators has
at most two nonzeros per row; a qualifying row holds the coefficients
-1/step and +1/step at the endpoint indices of the connected pixel edge,
positive operators reading (current, forward neighbour) and negative
operators reading (backward neighbour, current); the row of a valid pixel
without a valid neighbour in the direction is entirely zero; and on a fully
connected rectangular mask each operator maps a linear ramp depth field to
its analytic one sided finite difference scaled by 1/step. -/
theorem c5_difference_operator_structure (α : Type) [Field α] (m : Mask) (step : α) :
    ((∀ p : Cell, hasRightMask m p.1 p.2 = true → ∀ c,
        dHorizontalPos α m step (pixelIdx m p) c
          = (if pixelIdx m p = c then -1 / step else 0)
            + (if pixelIdx m (p.1, p.2 + 1) = c then 1 / step else 0))
      ∧ (∀ p : Cell, mAt m p.1 p.2 = true → hasRightMask m p.1 p.2 = false →
          ∀ c, dHorizontalPos α m step (pixelIdx m p) c = 0)
      ∧ (∀ r, ∃ c1 c2, ∀ c, dHorizontalPos α m step r c ≠ 0 → c = c1 ∨ c = c2)
      ∧ (∀ (Hh Ww : Nat) (a bb cc : α) (p : Cell), p.1 < Hh → p.2 + 1 < Ww →
          matVec (numPixel (fullMask Hh Ww)) (dHorizontalPos α (fullMask Hh Ww) step)
            (gatherVec (fullMask Hh Ww)
              (fun q => a * (q.1 : α) + bb * (q.2 : α) + cc))
            (pixelIdx (fullMask Hh Ww) p) = bb / step))
    ∧ ((∀ p : Cell, hasLeftMask m p.1 p.2 = true → ∀ c,
        dHorizontalNeg α m step (pixelIdx m p) c
          = (if pixelIdx m (p.1, p.2 - 1) = c then -1 / step else 0)
            + (if pixelIdx m p = c then 1 / step else 0))
      ∧ (∀ p : Cell, mAt m p.1 p.2 = true → hasLeftMask m p.1 p.2 = false →
          ∀ c, dHorizontalNeg α m step (pixelIdx m p) c = 0)
      ∧ (∀ r, ∃ c1 c2, ∀ c, dHorizontalNeg α m step r c ≠ 0 → c = c1 ∨ c = c2)
      ∧ (∀ (Hh Ww : Nat) (a bb cc : α) (p : Cell), p.1 < Hh → 1 ≤ p.2 → p.2 < Ww →
          matVec (numPixel (fullMask Hh Ww)) (dHorizontalNeg α (fullMask Hh Ww) step)
            (gatherVec (fullMask Hh Ww)
              (fun q => a * (q.1 : α) + bb * (q.2 : α) + cc))
            (pixelIdx (fullMask Hh Ww) p) = bb / step))
    ∧ ((∀ p : Cell, hasTopMask m p.1 p.2 = true → ∀ c,
        dVerticalPos α m step (pixelIdx m p) c
          = (if pixelIdx m p = c then -1 / step else 0)
            + (if pixelIdx m (p.1 - 1, p.2) = c then 1 / step else 0))
      ∧ (∀ p : Cell, mAt m p.1 p.2 = true → hasTopMask m p.1 p.2 = false →
          ∀ c, dVerticalPos α m step (pixelIdx m p) c = 0)
      ∧ (∀ r, ∃ c1 c2, ∀ c, dVerticalPos α m step r c ≠ 0 → c = c1 ∨ c = c2)
      ∧ (∀ (Hh Ww : Nat) (a bb cc : α) (p : Cell), 1 ≤ p.1 → p.1 < Hh → p.2 < Ww →
          matVec (numPixel (fullMask Hh Ww)) (dVerticalPos α (fullMask Hh Ww) step)
            (gatherVec (fullMask Hh Ww)
              (fun q => a * (q.1 : α) + bb * (q.2 : α) + cc))
            (pixelIdx (fullMask Hh Ww) p) = -a / step))
    ∧ ((∀ p : Cell, hasBottomMask m p.1 p.2 = true → ∀ c,
        dVerticalNeg α m step (pixelIdx m p) c
          = (if pixelIdx m (p.1 + 1, p.2) = c then -1 / step else 0)
            + (if pixelIdx m p = c then 1 / step else 0))
      ∧ (∀ p : Cell, mAt m p.1 p.2 = true → hasBottomMask m p.1 p.2 = false →
          ∀ c, dVerticalNeg α m step (pixelIdx m p) c = 0)
      ∧ (∀ r, ∃ c1 c2, ∀ c, dVerticalNeg α m step r c ≠ 0 → c = c1 ∨ c = c2)
      ∧ (∀ (Hh Ww : Nat) (a bb cc : α) (p : Cell), p.1 + 1 < Hh → p.2 < Ww →
          matVec (numPixel (fullMask Hh Ww)) (dVerticalNeg α (fullMask Hh Ww) step)
            (gatherVec (fullMask Hh Ww)
              (fun q => a * (q.1 : α) + bb * (q.2 : α) + cc))
            (pixelIdx (fullMask Hh Ww) p) = -a / step)) := by
  refine ⟨⟨?_, ?_, ?_, ?_⟩, ⟨?_, ?_, ?_, ?_⟩, ⟨?_, ?_, ?_, ?_⟩, ⟨?_, ?_, ?_, ?_⟩⟩
  · exact fun p hp c => dHorizontalPos_row m step hp c
  · exact fun p hm hnq c => dHorizontalPos_row_zero m step
      (no_row_of_not_qual (fun q h => (hasRightMask_elim h).1) hm hnq) c
  · exact fun r => dHorizontalPos_two m step r
  · exact fun Hh Ww a bb cc p h1 h2 => ramp_dHorizontalPos α Hh Ww step a bb cc h1 h2
  · exact fun p hp c => dHorizontalNeg_row m step hp c
  · exact fun p hm hnq c => dHorizontalNeg_row_zero m step
      (no_row_of_not_qual (fun q h => (hasLeftMask_elim h).1) hm hnq) c
  · exact fun r => dHorizontalNeg_two m step r
  · exact fun Hh Ww a bb cc p h1 h2 h3 =>
      ramp_dHorizontalNeg α Hh Ww step a bb cc h1 h2 h3
  · exact fun p hp c => dVerticalPos_row m step hp c
  · exact fun p hm hnq c => dVerticalPos_row_zero m step
      (no_row_of_not_qual (fun q h => (hasTopMask_elim h).1) hm hnq) c
  · exact fun r => dVerticalPos_two m step r
  · exact fun Hh Ww a bb cc p h1 h2 h3 =>
      ramp_dVerticalPos α Hh Ww step a bb cc h1 h2 h3
  · exact fun p hp c => dVerticalNeg_row m step hp c
  · exact fun p hm hnq c => dVerticalNeg_row_zero m step
      (no_row_of_not_qual (fun q h => (hasBottomMask_elim h).1) hm hnq) c
  · exact fun r => dVerticalNeg_two m step r
  · exact fun Hh Ww a bb cc p h1 h2 => ramp_dVerticalNeg α Hh Ww step a bb cc h1 h2

/-- Witness for C5: the structure theorem applied to the full 2 by 2 mask
over the rationals with unit step, evaluated at concrete pixels. -/
theorem c5_witness :
    dHorizontalPos ℚ (fullMask 2 2) 1 (pixelIdx (fullMask 2 2) (0, 0)) 0 = -1
      ∧ dHorizontalPos ℚ (fullMask 2 2) 1 (pixelIdx (fullMask 2 2) (0, 0)) 1 = 1
      ∧ matVec (numPixel (fullMask 2 2)) (dHorizontalPos ℚ (fullMask 2 2) 1)
          (gatherVec (fullMask 2 2) (fun q => 2 * (q.1 : ℚ) + 3 * (q.2 : ℚ) + 5))
          (pixelIdx (fullMask 2 2) (0, 0)) = 3
      ∧ matVec (numPixel (fullMask 2 2)) (dVerticalPos ℚ (fullMask 2 2) 1)
          (gatherVec (fullMask 2 2) (fun q => 2 * (q.1 : ℚ) + 3 * (q.2 : ℚ) + 5))
          (pixelIdx (fullMask 2 2) (1, 0)) = -2 := by
  obtain ⟨⟨hrow, _, _, hramp⟩, _, ⟨_, _, _, hrampV⟩, _⟩ :=
    c5_difference_operator_structure ℚ (fullMask 2 2) 1
  have hp00 : pixelIdx (fullMask 2 2) (0, 0) = 0 := by decide
  have hq00 : pixelIdx (fullMask 2 2) (0 : Cell) = 0 := by decide
  have hp01 : pixelIdx (fullMask 2 2) (0, 1) = 1 := by decide
  refine ⟨?_, ?_, ?_, ?_⟩
  · rw [hrow (0, 0) (by decide) 0]
    norm_num [hp00, hq00, hp01]
  · rw [hrow (0, 0) (by decide) 1]
    norm_num [hp00, hq00, hp01]
  · have h := hramp 2 2 2 3 5 (0, 0) (by decide) (by decide)
    rw [h]
    norm_num
  · have h := hrampV 2 2 2 3 5 (1, 0) (by decide) (by decide) (by decide)
    rw [h]
    norm_num

/-! construct_facets_from: the emitted facets. -/

theorem facetsList_eq (m : Mask) :
    facetsList m = (qualCells m (facetTopLeftMask m)).map
      (fun p => (pixelIdx m p, pixelIdx m (p.1 + 1, p.2),
        pixelIdx m (p.1 + 1, p.2 + 1), pixelIdx m (p.1, p.2 + 1))) := by
  unfold facetsList facetBottomLeftMask facetBottomRightMask facetTopRightMask
  have hftl : gatherIdx m (facetTopLeftMask m)
      = (qualCells m (facetTopLeftMask m)).map (pixelIdx m) := rfl
  rw [hftl, gather_moveBottom_facet, gather_moveBottomRight_facet,
    gather_moveRight_facet, List.zip_map', List.zip_map', List.zip_map']

theorem ftl_fullMask (H W i j : Nat) :
    facetTopLeftMask (fullMask H W) i j
      = (decide (i + 1 < H) && decide (j + 1 < W)) := by
  rw [Bool.eq_iff_iff]
  simp only [facetTopLeftMask, moveTop, moveLeft, moveTopLeft, mAt, fullMask,
    Bool.and_eq_true, Bool.and_true, decide_eq_true_eq]
  constructor
  · intro h
    omega
  · intro h
    omega

theorem filter_succ_lt_range (W : Nat) :
    (List.range W).filter (fun j => decide (j + 1 < W)) = List.range (W - 1) := by
  cases W with
  | zero => rfl
  | succ W' =>
      rw [List.range_succ, List.filter_append]
      have h1 : (List.range W').filter (fun j => decide (j + 1 < W' + 1))
          = List.range W' :=
        List.filter_eq_self.2 (fun j hj => by
          simp only [decide_eq_true_eq]
          exact Nat.succ_lt_succ (List.mem_range.1 hj))
      have h2 : [W'].filter (fun j => decide (j + 1 < W' + 1)) = [] := by
        simp
      rw [h1, h2, List.append_nil]
      simp

theorem facet_qual_full (H W : Nat) :
    (qualCells (fullMask H W) (facetTopLeftMask (fullMask H W))).length
      = (H - 1) * (W - 1) := by
  unfold qualCells
  rw [filter_cells, List.length_flatMap]
  show (List.map
      (List.length ∘ fun i =>
        ((List.range W).filter
          (fun j => facetTopLeftMask (fullMask H W) (i, j).1 (i, j).2)).map
          (fun j => (i, j)))
      (List.range H)).sum = (H - 1) * (W - 1)
  have hmap : List.map
      (List.length ∘ fun i =>
        ((List.range W).filter
          (fun j => facetTopLeftMask (fullMask H W) (i, j).1 (i, j).2)).map
          (fun j => (i, j)))
      (List.range H)
      = List.map (fun i => if i + 1 < H then W - 1 else 0) (List.range H) := by
    apply List.map_congr_left
    intro i _
    simp only [Function.comp, List.length_map, ftl_fullMask]
    by_cases hi : i + 1 < H
    · rw [if_pos hi]
      have hpred : (fun j => decide (i + 1 < H) && decide (j + 1 < W))
          = (fun j => decide (j + 1 < W)) := by
        funext j
        simp [hi]
      rw [hpred, filter_succ_lt_range, List.length_range]
    · rw [if_neg hi]
      have hpred : (fun j => decide (i + 1 < H) && decide (j + 1 < W))
          = (fun _ => false) := by
        funext j
        simp [hi]
      rw [hpred, List.filter_false, List.length_nil]
  rw [hmap]
  cases H with
  | zero => simp
  | succ H' =>
      rw [List.range_succ, List.map_append, List.sum_append]
      have h1 : List.map (fun i => if i + 1 < H' + 1 then W - 1 else 0)
          (List.range H') = List.replicate H' (W - 1) := by
        have : List.map (fun i => if i + 1 < H' + 1 then W - 1 else 0)
            (List.range H') = List.map (fun _ => W - 1) (List.range H') :=
          List.map_congr_left (fun i hi => by
            have := List.mem_range.1 hi
            simp
            omega)
        rw [this, show (fun _ : Nat => W - 1) = Function.const Nat (W - 1) from rfl,
          List.map_const, List.length_range]
      have h2 : List.map (fun i => if i + 1 < H' + 1 then W - 1 else 0) [H'] = [0] := by
        simp
      rw [h1, h2, List.sum_replicate]
      simp [Nat.add_sub_cancel]

/-- C9: for a fully connected rectangular H by W mask exactly
(H-1)(W-1) quad facets are produced, and for every mask each emitted facet is
a 4 tuple of vertex indices in [0, N) gathered from a 2 by 2 block of valid,
mutually connected pixels (top left, bottom left, bottom right, top right
corner order). -/
theorem c9_facets (m : Mask) :
    (∀ Hh Ww : Nat, (facetsList (fullMask Hh Ww)).length = (Hh - 1) * (Ww - 1))
      ∧ (∀ f ∈ facetsList m, ∃ p : Cell,
          facetTopLeftMask m p.1 p.2 = true
          ∧ f = (pixelIdx m p, pixelIdx m (p.1 + 1, p.2),
              pixelIdx m (p.1 + 1, p.2 + 1), pixelIdx m (p.1, p.2 + 1))
          ∧ mAt m p.1 p.2 = true ∧ mAt m (p.1 + 1) p.2 = true
          ∧ mAt m p.1 (p.2 + 1) = true ∧ mAt m (p.1 + 1) (p.2 + 1) = true
          ∧ f.1 < numPixel m ∧ f.2.1 < numPixel m ∧ f.2.2.1 < numPixel m
          ∧ f.2.2.2 < numPixel m) := by
  constructor
  · intro Hh Ww
    rw [facetsList_eq, List.length_map]
    exact facet_qual_full Hh Ww
  · intro f hf
    rw [facetsList_eq] at hf
    obtain ⟨p, hp, hfp⟩ := List.mem_map.1 hf
    have hq := mem_qualCells_qual hp
    obtain ⟨h1, h2, h3, h4⟩ := facetTopLeftMask_elim hq
    refine ⟨p, hq, hfp.symm, h1, h2, h3, h4, ?_, ?_, ?_, ?_⟩ <;> rw [← hfp]
    · exact pixelIdx_lt_numPixel h1
    · exact pixelIdx_lt_numPixel h2
    · exact pixelIdx_lt_numPixel h4
    · exact pixelIdx_lt_numPixel h3

/-- Witness for C9: the single facet of the full 2 by 2 mask. -/
theorem c9_witness :
    facetsList (fullMask 2 2) = [(0, 2, 3, 1)]
      ∧ ∃ p : Cell, facetTopLeftMask (fullMask 2 2) p.1 p.2 = true
          ∧ (0, 2, 3, 1) = (pixelIdx (fullMask 2 2) p,
              pixelIdx (fullMask 2 2) (p.1 + 1, p.2),
              pixelIdx (fullMask 2 2) (p.1 + 1, p.2 + 1),
              pixelIdx (fullMask 2 2) (p.1, p.2 + 1))
          ∧ mAt (fullMask 2 2) p.1 p.2 = true
          ∧ mAt (fullMask 2 2) (p.1 + 1) p.2 = true
          ∧ mAt (fullMask 2 2) p.1 (p.2 + 1) = true
          ∧ mAt (fullMask 2 2) (p.1 + 1) (p.2 + 1) = true
          ∧ (0 : Nat) < numPixel (fullMask 2 2) ∧ 2 < numPixel (fullMask 2 2)
          ∧ 3 < numPixel (fullMask 2 2) ∧ 1 < numPixel (fullMask 2 2) := by
  constructor
  · decide
  · exact (c9_facets (fullMask 2 2)).2 (0, 2, 3, 1) (by decide)

/-- C10: for every valid pixel the camera coordinate normal components are
obtained from the normal map by swapping the first two channels and negating
the third: nx reads channel 1, ny reads channel 0, nz reads the negated
channel 2. -/
theorem c10_normal_coordinate_transform (α : Type) [Field α] (m : Mask)
    (nm : Nat → Nat → Fin 3 → α) {p : Cell} (h : mAt m p.1 p.2 = true) :
    nxVec α m nm (pixelIdx m p) = nm p.1 p.2 1
      ∧ nyVec α m nm (pixelIdx m p) = nm p.1 p.2 0
      ∧ nzVec α m nm (pixelIdx m p) = -(nm p.1 p.2 2) :=
  ⟨gatherVec_pixelIdx _ h, gatherVec_pixelIdx _ h, gatherVec_pixelIdx _ h⟩

/-- Witness for C10 on a concrete one pixel mask and the flat normal map. -/
theorem c10_witness :
    nxVec ℚ (fullMask 1 1) (nmFlat ℚ) (pixelIdx (fullMask 1 1) (0, 0)) = 0
      ∧ nyVec ℚ (fullMask 1 1) (nmFlat ℚ) (pixelIdx (fullMask 1 1) (0, 0)) = 0
      ∧ nzVec ℚ (fullMask 1 1) (nmFlat ℚ) (pixelIdx (fullMask 1 1) (0, 0)) = 1 := by
  obtain ⟨h1, h2, h3⟩ := c10_normal_coordinate_transform ℚ (fullMask 1 1)
    (nmFlat ℚ) (p := (0, 0)) (by decide)
  have ha : nmFlat ℚ 0 0 1 = 0 := by decide
  have hb : nmFlat ℚ 0 0 0 = 0 := by decide
  have hc : nmFlat ℚ 0 0 2 = -1 := by decide
  refine ⟨?_, ?_, ?_⟩
  · rw [h1]
    exact ha
  · rw [h2]
    exact hb
  · rw [h3]
    rw [show nmFlat ℚ (0, 0).1 (0, 0).2 2 = nmFlat ℚ 0 0 2 from rfl, hc]
    norm_num

/-- C6 counterexample: on the full 2 by 1 mask with camera space normal
(1, 0, 0) and intrinsics fx = fy = 1, cx = cy = 0, the coefficient computed
by the code at pixel (0,0) differs from the coefficient prescribed by the
claim with u = col - cx and v = row - cy. -/
theorem c6_counterexample :
    nzUVec ℚ (fullMask 2 1) (nmX ℚ) (some ⟨1, 1, 0, 0⟩) 0
      ≠ nzUVecSpec ℚ (fullMask 2 1) (nmX ℚ) ⟨1, 1, 0, 0⟩ 0 := by
  have hmat : mAt (fullMask 2 1) (0, 0).1 (0, 0).2 = true := by decide
  have h0 : pixelIdx (fullMask 2 1) (0, 0) = 0 := by decide
  have hcode : nzUVec ℚ (fullMask 2 1) (nmX ℚ) (some ⟨1, 1, 0, 0⟩) 0 = 1 := by
    rw [← h0]
    show uuVec ℚ (fullMask 2 1) ⟨1, 1, 0, 0⟩ (pixelIdx (fullMask 2 1) (0, 0))
        * nxVec ℚ (fullMask 2 1) (nmX ℚ) (pixelIdx (fullMask 2 1) (0, 0))
      + vvVec ℚ (fullMask 2 1) ⟨1, 1, 0, 0⟩ (pixelIdx (fullMask 2 1) (0, 0))
        * nyVec ℚ (fullMask 2 1) (nmX ℚ) (pixelIdx (fullMask 2 1) (0, 0))
      + Intrin.fx ⟨1, 1, 0, 0⟩
        * nzVec ℚ (fullMask 2 1) (nmX ℚ) (pixelIdx (fullMask 2 1) (0, 0)) = 1
    unfold uuVec vvVec nxVec nyVec nzVec
    rw [gatherVec_pixelIdx _ hmat, gatherVec_pixelIdx _ hmat,
      gatherVec_pixelIdx _ hmat, gatherVec_pixelIdx _ hmat,
      gatherVec_pixelIdx _ hmat]
    have ha : nmX ℚ 0 0 1 = 1 := by decide
    have hb : nmX ℚ 0 0 0 = 0 := by decide
    have hc : nmX ℚ 0 0 2 = 0 := by decide
    norm_num [ha, hb, hc, xxFlip, xxGrid, yyGrid, fullMask]
  have hspec : nzUVecSpec ℚ (fullMask 2 1) (nmX ℚ) ⟨1, 1, 0, 0⟩ 0 = 0 := by
    rw [← h0]
    unfold nzUVecSpec
    rw [gatherVec_pixelIdx _ hmat]
    have ha : nmX ℚ 0 0 1 = 1 := by decide
    have hb : nmX ℚ 0 0 0 = 0 := by decide
    have hc : nmX ℚ 0 0 2 = 0 := by decide
    norm_num [ha, hb, hc, xxFlip, xxGrid, yyGrid, fullMask]
  rw [hcode, hspec]
  norm_num

/-- C6 amended: with intrinsics, the coefficient fields at a valid pixel are
Nu = u nx + v ny + fx nz and Nv = u nx + v ny + fy nz for the pixel offsets
u = (H - 1 - row) - cx (the row axis flipped to the vertical positive upward
convention) and v = col - cy, where nx, ny, nz are the camera space
components of the normal map; without intrinsics Nu = Nv = nz. -/
theorem c6_coefficient_fields (α : Type) [Field α] (m : Mask)
    (nm : Nat → Nat → Fin 3 → α) {p : Cell} (h : mAt m p.1 p.2 = true) :
    (∀ Kc : Intrin α,
      (nzUVec α m nm (some Kc) (pixelIdx m p)
          = (((m.H - 1 - p.1 : Nat) : α) - Kc.cx) * nm p.1 p.2 1
            + (((p.2 : Nat) : α) - Kc.cy) * nm p.1 p.2 0
            + Kc.fx * (-(nm p.1 p.2 2)))
        ∧ (nzVVec α m nm (some Kc) (pixelIdx m p)
          = (((m.H - 1 - p.1 : Nat) : α) - Kc.cx) * nm p.1 p.2 1
            + (((p.2 : Nat) : α) - Kc.cy) * nm p.1 p.2 0
            + Kc.fy * (-(nm p.1 p.2 2))))
      ∧ nzUVec α m nm none (pixelIdx m p) = -(nm p.1 p.2 2)
      ∧ nzVVec α m nm none (pixelIdx m p) = -(nm p.1 p.2 2) := by
  refine ⟨?_, ?_, ?_⟩
  · intro Kc
    constructor
    · show uuVec α m Kc (pixelIdx m p) * nxVec α m nm (pixelIdx m p)
        + vvVec α m Kc (pixelIdx m p) * nyVec α m nm (pixelIdx m p)
        + Kc.fx * nzVec α m nm (pixelIdx m p) = _
      unfold uuVec vvVec nxVec nyVec nzVec
      rw [gatherVec_pixelIdx _ h, gatherVec_pixelIdx _ h, gatherVec_pixelIdx _ h,
        gatherVec_pixelIdx _ h, gatherVec_pixelIdx _ h]
      rfl
    · show uuVec α m Kc (pixelIdx m p) * nxVec α m nm (pixelIdx m p)
        + vvVec α m Kc (pixelIdx m p) * nyVec α m nm (pixelIdx m p)
        + Kc.fy * nzVec α m nm (pixelIdx m p) = _
      unfold uuVec vvVec nxVec nyVec nzVec
      rw [gatherVec_pixelIdx _ h, gatherVec_pixelIdx _ h, gatherVec_pixelIdx _ h,
        gatherVec_pixelIdx _ h, gatherVec_pixelIdx _ h]
      rfl
  · show nzVec α m nm (pixelIdx m p) = _
    unfold nzVec
    exact gatherVec_pixelIdx _ h
  · show nzVec α m nm (pixelIdx m p) = _
    unfold nzVec
    exact gatherVec_pixelIdx _ h

/-- Witness for the amended C6 on the full 2 by 1 mask. -/
theorem c6_witness :
    nzUVec ℚ (fullMask 2 1) (nmX ℚ) (some ⟨1, 1, 0, 0⟩)
        (pixelIdx (fullMask 2 1) (0, 0)) = 1
      ∧ nzUVec ℚ (fullMask 2 1) (nmX ℚ) none (pixelIdx (fullMask 2 1) (0, 0)) = 0 := by
  obtain ⟨hpersp, horth, _⟩ := c6_coefficient_fields ℚ (fullMask 2 1) (nmX ℚ)
    (p := (0, 0)) (by decide)
  have ha : nmX ℚ 0 0 1 = 1 := by decide
  have hb : nmX ℚ 0 0 0 = 0 := by decide
  have hc : nmX ℚ 0 0 2 = 0 := by decide
  constructor
  · rw [(hpersp ⟨1, 1, 0, 0⟩).1]
    norm_num [ha, hb, hc, fullMask]
  · rw [horth]
    rw [show nmX ℚ (0, 0).1 (0, 0).2 2 = nmX ℚ 0 0 2 from rfl, hc]
    norm_num

/-- C7 counterexample: on the full 2 by 2 mask with the flat normal map and
no intrinsics, the first stacked block A1 of the code differs from
diag(Nu) times the horizontal forward difference operator D_horizontal_pos
at entry (0, 1): the code builds A1 from the vertical operator. -/
theorem c7_counterexample :
    A1mat ℚ (fullMask 2 2) (nmFlat ℚ) none 1 0 1
      ≠ diagMul (nzUVec ℚ (fullMask 2 2) (nmFlat ℚ) none)
          (dHorizontalPos ℚ (fullMask 2 2) 1) 0 1 := by
  have hmat : mAt (fullMask 2 2) (0, 0).1 (0, 0).2 = true := by decide
  have h0 : pixelIdx (fullMask 2 2) (0, 0) = 0 := by decide
  have h1 : pixelIdx (fullMask 2 2) (0, 1) = 1 := by decide
  have hnz : nzUVec ℚ (fullMask 2 2) (nmFlat ℚ) none 0 = 1 := by
    rw [← h0]
    show nzVec ℚ (fullMask 2 2) (nmFlat ℚ) (pixelIdx (fullMask 2 2) (0, 0)) = 1
    unfold nzVec
    rw [gatherVec_pixelIdx _ hmat]
    have hc : nmFlat ℚ 0 0 2 = -1 := by decide
    rw [show nmFlat ℚ (0, 0).1 (0, 0).2 2 = nmFlat ℚ 0 0 2 from rfl, hc]
    norm_num
  have hvzero : dVerticalPos ℚ (fullMask 2 2) 1 0 1 = 0 := by
    rw [← h0]
    exact dVerticalPos_row_zero (fullMask 2 2) 1
      (no_row_of_not_qual (fun q hq => (hasTopMask_elim hq).1) hmat (by decide)) 1
  have hhrow : dHorizontalPos ℚ (fullMask 2 2) 1 0 1 = 1 := by
    rw [← h0]
    rw [dHorizontalPos_row (fullMask 2 2) 1 (p := (0, 0)) (by decide) 1]
    rw [h0]
    rw [show pixelIdx (fullMask 2 2) ((0, 0).1, (0, 0).2 + 1)
      = pixelIdx (fullMask 2 2) (0, 1) from rfl, h1]
    norm_num
  show diagMul (nzUVec ℚ (fullMask 2 2) (nmFlat ℚ) none)
      (Dup ℚ (fullMask 2 2) 1) 0 1 ≠ _
  unfold diagMul Dup
  rw [hnz, hvzero, hhrow]
  norm_num

/-- C7 amended: the stacked 4N by N system pairs the Nu coefficients and the
-nx right hand side entries with the vertical difference operators (the
variables Dup and Dun of the code, built from top and bottom neighbours),
and the Nv coefficients and -ny entries with the horizontal operators
(Dvp and Dvn, built from right and left neighbours), in the block order
A1 = diag(Nu) Dpos_v, A2 = diag(Nu) Dneg_v, A3 = diag(Nv) Dpos_h,
A4 = diag(Nv) Dneg_h, with b = concat(-nx, -nx, -ny, -ny). -/
theorem c7_stacked_system (α : Type) [Field α] (m : Mask)
    (nm : Nat → Nat → Fin 3 → α) (Kopt : Option (Intrin α)) (step : α)
    (r c : Nat) :
    (r < numPixel m →
      Astack (numPixel m) (A1mat α m nm Kopt step) (A2mat α m nm Kopt step)
          (A3mat α m nm Kopt step) (A4mat α m nm Kopt step) r c
        = nzUVec α m nm Kopt r * dVerticalPos α m step r c
      ∧ bVec (numPixel m) (nxVec α m nm) (nyVec α m nm) r = -nxVec α m nm r)
    ∧ (numPixel m ≤ r → r < 2 * numPixel m →
      Astack (numPixel m) (A1mat α m nm Kopt step) (A2mat α m nm Kopt step)
          (A3mat α m nm Kopt step) (A4mat α m nm Kopt step) r c
        = nzUVec α m nm Kopt (r - numPixel m)
            * dVerticalNeg α m step (r - numPixel m) c
      ∧ bVec (numPixel m) (nxVec α m nm) (nyVec α m nm) r
        = -nxVec α m nm (r - numPixel m))
    ∧ (2 * numPixel m ≤ r → r < 3 * numPixel m →
      Astack (numPixel m) (A1mat α m nm Kopt step) (A2mat α m nm Kopt step)
          (A3mat α m nm Kopt step) (A4mat α m nm Kopt step) r c
        = nzVVec α m nm Kopt (r - 2 * numPixel m)
            * dHorizontalPos α m step (r - 2 * numPixel m) c
      ∧ bVec (numPixel m) (nxVec α m nm) (nyVec α m nm) r
        = -nyVec α m nm (r - 2 * numPixel m))
    ∧ (3 * numPixel m ≤ r →
      Astack (numPixel m) (A1mat α m nm Kopt step) (A2mat α m nm Kopt step)
          (A3mat α m nm Kopt step) (A4mat α m nm Kopt step) r c
        = nzVVec α m nm Kopt (r - 3 * numPixel m)
            * dHorizontalNeg α m step (r - 3 * numPixel m) c
      ∧ bVec (numPixel m) (nxVec α m nm) (nyVec α m nm) r
        = -nyVec α m nm (r - 3 * numPixel m)) := by
  refine ⟨?_, ?_, ?_, ?_⟩
  · intro h1
    constructor
    · unfold Astack A1mat diagMul Dup
      rw [if_pos h1]
    · unfold bVec concat4
      rw [if_pos h1]
  · intro h1 h2
    constructor
    · unfold Astack A2mat diagMul Dun
      rw [if_neg (by omega), if_pos h2]
    · unfold bVec concat4
      rw [if_neg (by omega), if_pos h2]
  · intro h1 h2
    constructor
    · unfold Astack A3mat diagMul Dvp
      rw [if_neg (by omega), if_neg (by omega), if_pos h2]
    · unfold bVec concat4
      rw [if_neg (by omega), if_neg (by omega), if_pos h2]
  · intro h1
    constructor
    · unfold Astack A4mat diagMul Dvn
      rw [if_neg (by omega), if_neg (by omega), if_neg (by omega)]
    · unfold bVec concat4
      rw [if_neg (by omega), if_neg (by omega), if_neg (by omega)]

/-- Witness for the amended C7 on the full 2 by 2 mask. -/
theorem c7_witness :
    Astack (numPixel (fullMask 2 2)) (A1mat ℚ (fullMask 2 2) (nmFlat ℚ) none 1)
        (A2mat ℚ (fullMask 2 2) (nmFlat ℚ) none 1)
        (A3mat ℚ (fullMask 2 2) (nmFlat ℚ) none 1)
        (A4mat ℚ (fullMask 2 2) (nmFlat ℚ) none 1) 0 1
      = nzUVec ℚ (fullMask 2 2) (nmFlat ℚ) none 0
          * dVerticalPos ℚ (fullMask 2 2) 1 0 1
      ∧ bVec (numPixel (fullMask 2 2)) (nxVec ℚ (fullMask 2 2) (nmFlat ℚ))
          (nyVec ℚ (fullMask 2 2) (nmFlat ℚ)) 0
        = -nxVec ℚ (fullMask 2 2) (nmFlat ℚ) 0 :=
  (c7_stacked_system ℚ (fullMask 2 2) (nmFlat ℚ) none 1 0 1).1 (by decide)

/-! The depth prior offset. -/

theorem list_range_map_sum {α : Type} [AddCommMonoid α] (f : Nat → α) (N : Nat) :
    ((List.range N).map f).sum = ∑ t ∈ Finset.range N, f t := by
  induction N with
  | zero => simp
  | succ n ih =>
      rw [List.range_succ, List.map_append, List.sum_append, ih,
        Finset.sum_range_succ]
      simp

theorem filter_nonzero_sum {α : Type} [AddCommMonoid α] (L : List Nat)
    (f : Nat → α) (q : Nat → Bool) (hq : ∀ t ∈ L, q t = false → f t = 0) :
    ((L.filter q).map f).sum = (L.map f).sum := by
  have hperm := (List.filter_append_perm q L).map f
  rw [← hperm.sum_eq, List.map_append, List.sum_append]
  have hz : ((L.filter (fun x => !q x)).map f).sum = 0 := by
    apply sum_map_eq_zero
    intro t ht
    have hmem := List.mem_filter.1 ht
    apply hq t hmem.1
    simpa using hmem.2
  rw [hz, add_zero]

theorem filter_range_length_card (p : Nat → Prop) [DecidablePred p] (N : Nat) :
    ((List.range N).filter (fun t => decide (p t))).length
      = ((Finset.range N).filter p).card := by
  induction N with
  | zero => simp
  | succ n ih =>
      rw [List.range_succ, List.filter_append, List.length_append, ih,
        Finset.range_succ, Finset.filter_insert]
      by_cases hp : p n
      · rw [if_pos hp, Finset.card_insert_of_not_mem
          (fun hmem => Finset.not_mem_range_self (Finset.mem_of_mem_filter n hmem))]
        simp [hp]
      · rw [if_neg hp]
        simp [hp]

/-- C2 counterexample: when the prior agrees with z everywhere on the prior
mask, every entry of M (z_prior - z) is zero, and the computed offset is the
undefined nanmean of an all nan vector (none), not the numeric value 0; the
shifted z is likewise undefined in every entry. -/
theorem c2_counterexample :
    offsetOpt ℚ 1 (fun _ => 1) (fun _ => 5) (fun _ => 5) = none
      ∧ zShift ℚ 1 (fun _ => 1) (fun _ => 5) (fun _ => 5) = none := by
  have hoff : offsetOpt ℚ 1 (fun _ => 1) (fun _ => 5) (fun _ => 5) = none := by
    unfold offsetOpt
    rw [if_pos ?_]
    have h1 : (List.range 1).map
        (fun t => (fun _ : Nat => (1 : ℚ)) t
          * ((fun _ : Nat => (5 : ℚ)) t - (fun _ : Nat => (5 : ℚ)) t)) = [0] := by
      rw [show List.range 1 = [0] from rfl, List.map_cons, List.map_nil]
      norm_num
    rw [h1]
    have h2 : List.filter (fun x : ℚ => decide (¬x = 0)) [0] = [] := by
      rw [List.filter_cons]
      norm_num
    rw [h2]
    rfl
  refine ⟨hoff, ?_⟩
  unfold zShift
  rw [hoff]
  rfl

/-- C2 amended: in every prior fusion step, when some prior pixel has a
nonzero residual the offset is the mean of the nonzero residuals of
M (z_prior - z), that is, the total residual sum divided by the number of
nonzero residuals, and z is shifted by it; when no prior pixel yields a
nonzero residual the offset is the nan of an empty nanmean (none) and the
whole updated z becomes non numeric, rather than the offset being 0. -/
theorem c2_prior_offset (α : Type) [Field α] [DecidableEq α] (N : Nat)
    (mv zp z : Nat → α) :
    ((∀ t, t < N → mv t * (zp t - z t) = 0) →
      offsetOpt α N mv zp z = none ∧ zShift α N mv zp z = none)
    ∧ (∀ t0, t0 < N → mv t0 * (zp t0 - z t0) ≠ 0 →
      offsetOpt α N mv zp z
          = some ((∑ t ∈ Finset.range N, mv t * (zp t - z t))
              / ((((Finset.range N).filter
                  (fun t => mv t * (zp t - z t) ≠ 0)).card : Nat) : α))
        ∧ zShift α N mv zp z
          = some (fun s => z s
              + (∑ t ∈ Finset.range N, mv t * (zp t - z t))
                / ((((Finset.range N).filter
                    (fun t => mv t * (zp t - z t) ≠ 0)).card : Nat) : α))) := by
  constructor
  · intro hz
    have hfilter : ((List.range N).map (fun t => mv t * (zp t - z t))).filter
        (fun x => decide (¬x = 0)) = [] := by
      apply List.filter_eq_nil_iff.2
      intro a ha
      rcases List.mem_map.1 ha with ⟨t, ht, rfl⟩
      have h0 : mv t * (zp t - z t) = 0 := hz t (List.mem_range.1 ht)
      simp [h0]
    have hoff : offsetOpt α N mv zp z = none := by
      unfold offsetOpt
      rw [hfilter]
      rfl
    refine ⟨hoff, ?_⟩
    unfold zShift
    rw [hoff]
    rfl
  · intro t0 ht0 hne
    have hmem : mv t0 * (zp t0 - z t0)
        ∈ ((List.range N).map (fun t => mv t * (zp t - z t))).filter
          (fun x => decide (¬x = 0)) := by
      apply List.mem_filter.2
      refine ⟨List.mem_map.2 ⟨t0, List.mem_range.2 ht0, rfl⟩, ?_⟩
      simp [hne]
    have hlen : (((List.range N).map (fun t => mv t * (zp t - z t))).filter
        (fun x => decide (¬x = 0))).length ≠ 0 := by
      intro h0
      rw [List.length_eq_zero] at h0
      rw [h0] at hmem
      cases hmem
    have hcomp : ((fun x : α => decide (¬x = 0)) ∘ fun t => mv t * (zp t - z t))
        = fun t => decide (mv t * (zp t - z t) ≠ 0) := rfl
    have hsum : (((List.range N).map (fun t => mv t * (zp t - z t))).filter
        (fun x => decide (¬x = 0))).sum
        = ∑ t ∈ Finset.range N, mv t * (zp t - z t) := by
      rw [List.filter_map, hcomp]
      rw [filter_nonzero_sum (List.range N) (fun t => mv t * (zp t - z t))
        (fun t => decide (mv t * (zp t - z t) ≠ 0)) ?_]
      · exact list_range_map_sum _ N
      · intro t _ hfalse
        exact not_not.1 (of_decide_eq_false hfalse)
    have hcard : (((List.range N).map (fun t => mv t * (zp t - z t))).filter
        (fun x => decide (¬x = 0))).length
        = ((Finset.range N).filter (fun t => mv t * (zp t - z t) ≠ 0)).card := by
      rw [List.filter_map, hcomp, List.length_map]
      exact filter_range_length_card _ N
    have hoff : offsetOpt α N mv zp z
        = some ((∑ t ∈ Finset.range N, mv t * (zp t - z t))
            / ((((Finset.range N).filter
                (fun t => mv t * (zp t - z t) ≠ 0)).card : Nat) : α)) := by
      unfold offsetOpt
      rw [if_neg hlen, hsum, hcard]
    refine ⟨hoff, ?_⟩
    unfold zShift
    rw [hoff]
    rfl

/-- Witness for the amended C2: a prior with one zero and one nonzero
residual, whose offset is the mean of the single nonzero residual. -/
theorem c2_witness :
    offsetOpt ℚ 2 (fun _ => 1) (fun t => (t : ℚ)) (fun _ => 0)
      = some ((∑ t ∈ Finset.range 2, (1 : ℚ) * ((t : ℚ) - 0))
          / ((((Finset.range 2).filter
              (fun t : Nat => (1 : ℚ) * ((t : ℚ) - 0) ≠ 0)).card : Nat) : ℚ)) :=
  ((c2_prior_offset ℚ 2 (fun _ => 1) (fun t => (t : ℚ)) (fun _ => 0)).2 1
    (by norm_num) (by norm_num)).1

/-! Properties of the sigmoid reweighting function. -/

theorem sigmoid_pos (x k : ℝ) : 0 < sigmoid x k := by
  unfold sigmoid
  positivity

theorem sigmoid_lt_one (x k : ℝ) : sigmoid x k < 1 := by
  unfold sigmoid
  rw [div_lt_one (by positivity)]
  linarith [Real.exp_pos (-k * x)]

theorem sigmoid_add_compl (x k : ℝ) : sigmoid x k + sigmoid (-x) k = 1 := by
  unfold sigmoid
  rw [show -k * -x = k * x from by ring, show -k * x = -(k * x) from by ring]
  have ha := Real.exp_pos (-(k * x))
  have hb := Real.exp_pos (k * x)
  have hab : Real.exp (-(k * x)) * Real.exp (k * x) = 1 := by
    rw [← Real.exp_add, show -(k * x) + k * x = 0 from by ring, Real.exp_zero]
  have ha1 : (1 : ℝ) + Real.exp (-(k * x)) ≠ 0 := by positivity
  have hb1 : (1 : ℝ) + Real.exp (k * x) ≠ 0 := by positivity
  field_simp
  nlinarith [hab]

theorem sigmoid_neg_eq (x k : ℝ) : sigmoid (-x) k = 1 - sigmoid x k := by
  have := sigmoid_add_compl x k
  linarith

theorem sigmoid_lt_sigmoid {k x y : ℝ} (hk : 0 < k) (hxy : x < y) :
    sigmoid x k < sigmoid y k := by
  unfold sigmoid
  apply one_div_lt_one_div_of_lt (by positivity)
  have h1 : -k * y < -k * x := by nlinarith
  have h2 := Real.exp_lt_exp.2 h1
  linarith

/-! Index arithmetic for the four stacked blocks. -/

theorem concat4_block1 {α : Type} (N : Nat) (v1 v2 v3 v4 : Nat → α) {i : Nat}
    (h : i < N) : concat4 N v1 v2 v3 v4 i = v1 i := by
  unfold concat4
  rw [if_pos h]

theorem concat4_block2 {α : Type} (N : Nat) (v1 v2 v3 v4 : Nat → α) {i : Nat}
    (h : i < N) : concat4 N v1 v2 v3 v4 (i + N) = v2 i := by
  unfold concat4
  rw [if_neg (by omega), if_pos (by omega)]
  congr 1
  omega

theorem concat4_block3 {α : Type} (N : Nat) (v1 v2 v3 v4 : Nat → α) {i : Nat}
    (h : i < N) : concat4 N v1 v2 v3 v4 (i + 2 * N) = v3 i := by
  unfold concat4
  rw [if_neg (by omega), if_neg (by omega), if_pos (by omega)]
  congr 1
  omega

theorem concat4_block4 {α : Type} (N : Nat) (v1 v2 v3 v4 : Nat → α) {i : Nat}
    (h : i < N) : concat4 N v1 v2 v3 v4 (i + 3 * N) = v4 i := by
  unfold concat4
  rw [if_neg (by omega), if_neg (by omega), if_neg (by omega)]
  congr 1
  omega

/-- One step unfolding of the outer loop. -/
theorem irlsLoop_succ (ctx : LoopCtx) (fuel : Nat) (st : IterState) :
    irlsLoop ctx (fuel + 1) st
      = if relEnergy st.energy (iterStep ctx st).energy < ctx.tol
        then iterStep ctx st
        else irlsLoop ctx fuel (iterStep ctx st) := rfl

theorem updateWdiag_nonneg (N : Nat) (A1 A2 A3 A4 : Nat → Nat → ℝ) (z : Nat → ℝ)
    (k : ℝ) (r : Nat) : 0 ≤ updateWdiag N A1 A2 A3 A4 z k r := by
  unfold updateWdiag concat4
  split_ifs
  · exact le_of_lt (sigmoid_pos _ _)
  · show (0 : ℝ) ≤ 1 - wuVec N A1 A2 z k (r - N)
    unfold wuVec
    linarith [sigmoid_lt_one ((matVec N A2 z (r - N)) ^ 2
      - (matVec N A1 z (r - N)) ^ 2) k]
  · exact le_of_lt (sigmoid_pos _ _)
  · show (0 : ℝ) ≤ 1 - wvVec N A3 A4 z k (r - 3 * N)
    unfold wvVec
    linarith [sigmoid_lt_one ((matVec N A4 z (r - 3 * N)) ^ 2
      - (matVec N A3 z (r - 3 * N)) ^ 2) k]

theorem irlsLoop_Wd_nonneg (ctx : LoopCtx) (fuel : Nat) (st : IterState)
    (h : ∀ r, 0 ≤ st.Wd r) : ∀ r, 0 ≤ (irlsLoop ctx fuel st).Wd r := by
  induction fuel generalizing st with
  | zero => exact h
  | succ fuel ih =>
      rw [irlsLoop_succ]
      split_ifs
      · intro r
        exact updateWdiag_nonneg _ _ _ _ _ _ _ _
      · exact ih (iterStep ctx st) (fun r => updateWdiag_nonneg _ _ _ _ _ _ _ _)

/-- C4: the weight diagonal starts at the uniform value 0.5; after every
weight update the forward and backward weights of each axis are exactly
complementary and lie in [0, 1]; consequently the weight diagonal is
nonnegative at every iteration of the loop. -/
theorem c4_weight_invariants :
    (∀ r, w0diag r = 0.5)
    ∧ (∀ (N : Nat) (A1 A2 A3 A4 : Nat → Nat → ℝ) (z : Nat → ℝ) (k : ℝ)
        (i : Nat), i < N →
        updateWdiag N A1 A2 A3 A4 z k i + updateWdiag N A1 A2 A3 A4 z k (i + N) = 1
        ∧ updateWdiag N A1 A2 A3 A4 z k (i + 2 * N)
            + updateWdiag N A1 A2 A3 A4 z k (i + 3 * N) = 1
        ∧ 0 ≤ updateWdiag N A1 A2 A3 A4 z k i
        ∧ updateWdiag N A1 A2 A3 A4 z k i ≤ 1
        ∧ 0 ≤ updateWdiag N A1 A2 A3 A4 z k (i + N)
        ∧ updateWdiag N A1 A2 A3 A4 z k (i + N) ≤ 1
        ∧ 0 ≤ updateWdiag N A1 A2 A3 A4 z k (i + 2 * N)
        ∧ updateWdiag N A1 A2 A3 A4 z k (i + 2 * N) ≤ 1
        ∧ 0 ≤ updateWdiag N A1 A2 A3 A4 z k (i + 3 * N)
        ∧ updateWdiag N A1 A2 A3 A4 z k (i + 3 * N) ≤ 1)
    ∧ (∀ (N : Nat) (A1 A2 A3 A4 : Nat → Nat → ℝ) (z : Nat → ℝ) (k : ℝ) (r : Nat),
        0 ≤ updateWdiag N A1 A2 A3 A4 z k r)
    ∧ (∀ (ctx : LoopCtx) (fuel : Nat) (st : IterState),
        (∀ r, 0 ≤ st.Wd r) → ∀ r, 0 ≤ (irlsLoop ctx fuel st).Wd r) := by
  refine ⟨fun _ => rfl, ?_, updateWdiag_nonneg, irlsLoop_Wd_nonneg⟩
  intro N A1 A2 A3 A4 z k i h
  have h1 := concat4_block1 N (wuVec N A1 A2 z k)
    (fun t => 1 - wuVec N A1 A2 z k t) (wvVec N A3 A4 z k)
    (fun t => 1 - wvVec N A3 A4 z k t) h
  have h2 := concat4_block2 N (wuVec N A1 A2 z k)
    (fun t => 1 - wuVec N A1 A2 z k t) (wvVec N A3 A4 z k)
    (fun t => 1 - wvVec N A3 A4 z k t) h
  have h3 := concat4_block3 N (wuVec N A1 A2 z k)
    (fun t => 1 - wuVec N A1 A2 z k t) (wvVec N A3 A4 z k)
    (fun t => 1 - wvVec N A3 A4 z k t) h
  have h4 := concat4_block4 N (wuVec N A1 A2 z k)
    (fun t => 1 - wuVec N A1 A2 z k t) (wvVec N A3 A4 z k)
    (fun t => 1 - wvVec N A3 A4 z k t) h
  have hwu1 : 0 < wuVec N A1 A2 z k i := sigmoid_pos _ _
  have hwu2 : wuVec N A1 A2 z k i < 1 := sigmoid_lt_one _ _
  have hwv1 : 0 < wvVec N A3 A4 z k i := sigmoid_pos _ _
  have hwv2 : wvVec N A3 A4 z k i < 1 := sigmoid_lt_one _ _
  show updateWdiag N A1 A2 A3 A4 z k i + updateWdiag N A1 A2 A3 A4 z k (i + N) = 1
    ∧ _
  rw [show updateWdiag N A1 A2 A3 A4 z k i = wuVec N A1 A2 z k i from h1,
    show updateWdiag N A1 A2 A3 A4 z k (i + N) = 1 - wuVec N A1 A2 z k i from h2,
    show updateWdiag N A1 A2 A3 A4 z k (i + 2 * N) = wvVec N A3 A4 z k i from h3,
    show updateWdiag N A1 A2 A3 A4 z k (i + 3 * N) = 1 - wvVec N A3 A4 z k i from h4]
  refine ⟨by ring, by ring, ?_, ?_, ?_, ?_, ?_, ?_, ?_, ?_⟩ <;> linarith

/-- Witness for C4 at a concrete one pixel system. -/
theorem c4_witness :
    w0diag 0 = 0.5
      ∧ updateWdiag 1 (fun _ _ => 0) (fun _ _ => 0) (fun _ _ => 0) (fun _ _ => 0)
          (fun _ => 0) 2 0
        + updateWdiag 1 (fun _ _ => 0) (fun _ _ => 0) (fun _ _ => 0) (fun _ _ => 0)
          (fun _ => 0) 2 (0 + 1) = 1
      ∧ 0 ≤ updateWdiag 1 (fun _ _ => 0) (fun _ _ => 0) (fun _ _ => 0)
          (fun _ _ => 0) (fun _ => 0) 2 0 := by
  obtain ⟨hinit, hblocks, hnn, _⟩ := c4_weight_invariants
  obtain ⟨hc, _, hge, _⟩ := hblocks 1 (fun _ _ => 0) (fun _ _ => 0) (fun _ _ => 0)
    (fun _ _ => 0) (fun _ => 0) 2 0 (by norm_num)
  exact ⟨hinit 0, hc, hge⟩

/-- C1 amended: in every iteration of the loop, with dp = A1 z the forward
estimate and du = A2 z the backward estimate computed at the fresh iterate,
the weight applied to the forward residual block equals
sigmoid(du^2 - dp^2, k), equivalently 1 - sigmoid(dp^2 - du^2, k), and the
backward block receives sigmoid(dp^2 - du^2, k); the vertical axis blocks
behave analogously with A3 and A4; the 4N weight diagonal is assembled from
these four vectors. -/
theorem c1_forward_weight (ctx : LoopCtx) (st : IterState) {i : Nat}
    (h : i < ctx.N) :
    ((iterStep ctx st).Wd i
        = sigmoid ((matVec ctx.N ctx.A2 (ctx.solver st.Wd st.z) i) ^ 2
            - (matVec ctx.N ctx.A1 (ctx.solver st.Wd st.z) i) ^ 2) ctx.kSharp)
    ∧ ((iterStep ctx st).Wd i
        = 1 - sigmoid ((matVec ctx.N ctx.A1 (ctx.solver st.Wd st.z) i) ^ 2
            - (matVec ctx.N ctx.A2 (ctx.solver st.Wd st.z) i) ^ 2) ctx.kSharp)
    ∧ ((iterStep ctx st).Wd (i + ctx.N)
        = sigmoid ((matVec ctx.N ctx.A1 (ctx.solver st.Wd st.z) i) ^ 2
            - (matVec ctx.N ctx.A2 (ctx.solver st.Wd st.z) i) ^ 2) ctx.kSharp)
    ∧ ((iterStep ctx st).Wd (i + 2 * ctx.N)
        = sigmoid ((matVec ctx.N ctx.A4 (ctx.solver st.Wd st.z) i) ^ 2
            - (matVec ctx.N ctx.A3 (ctx.solver st.Wd st.z) i) ^ 2) ctx.kSharp)
    ∧ ((iterStep ctx st).Wd (i + 3 * ctx.N)
        = sigmoid ((matVec ctx.N ctx.A3 (ctx.solver st.Wd st.z) i) ^ 2
            - (matVec ctx.N ctx.A4 (ctx.solver st.Wd st.z) i) ^ 2) ctx.kSharp) := by
  have h1 : (iterStep ctx st).Wd i
      = wuVec ctx.N ctx.A1 ctx.A2 (ctx.solver st.Wd st.z) ctx.kSharp i :=
    concat4_block1 ctx.N
      (wuVec ctx.N ctx.A1 ctx.A2 (ctx.solver st.Wd st.z) ctx.kSharp)
      (fun t => 1 - wuVec ctx.N ctx.A1 ctx.A2 (ctx.solver st.Wd st.z) ctx.kSharp t)
      (wvVec ctx.N ctx.A3 ctx.A4 (ctx.solver st.Wd st.z) ctx.kSharp)
      (fun t => 1 - wvVec ctx.N ctx.A3 ctx.A4 (ctx.solver st.Wd st.z) ctx.kSharp t) h
  have h2 : (iterStep ctx st).Wd (i + ctx.N)
      = 1 - wuVec ctx.N ctx.A1 ctx.A2 (ctx.solver st.Wd st.z) ctx.kSharp i :=
    concat4_block2 ctx.N
      (wuVec ctx.N ctx.A1 ctx.A2 (ctx.solver st.Wd st.z) ctx.kSharp)
      (fun t => 1 - wuVec ctx.N ctx.A1 ctx.A2 (ctx.solver st.Wd st.z) ctx.kSharp t)
      (wvVec ctx.N ctx.A3 ctx.A4 (ctx.solver st.Wd st.z) ctx.kSharp)
      (fun t => 1 - wvVec ctx.N ctx.A3 ctx.A4 (ctx.solver st.Wd st.z) ctx.kSharp t) h
  have h3 : (iterStep ctx st).Wd (i + 2 * ctx.N)
      = wvVec ctx.N ctx.A3 ctx.A4 (ctx.solver st.Wd st.z) ctx.kSharp i :=
    concat4_block3 ctx.N
      (wuVec ctx.N ctx.A1 ctx.A2 (ctx.solver st.Wd st.z) ctx.kSharp)
      (fun t => 1 - wuVec ctx.N ctx.A1 ctx.A2 (ctx.solver st.Wd st.z) ctx.kSharp t)
      (wvVec ctx.N ctx.A3 ctx.A4 (ctx.solver st.Wd st.z) ctx.kSharp)
      (fun t => 1 - wvVec ctx.N ctx.A3 ctx.A4 (ctx.solver st.Wd st.z) ctx.kSharp t) h
  have h4 : (iterStep ctx st).Wd (i + 3 * ctx.N)
      = 1 - wvVec ctx.N ctx.A3 ctx.A4 (ctx.solver st.Wd st.z) ctx.kSharp i :=
    concat4_block4 ctx.N
      (wuVec ctx.N ctx.A1 ctx.A2 (ctx.solver st.Wd st.z) ctx.kSharp)
      (fun t => 1 - wuVec ctx.N ctx.A1 ctx.A2 (ctx.solver st.Wd st.z) ctx.kSharp t)
      (wvVec ctx.N ctx.A3 ctx.A4 (ctx.solver st.Wd st.z) ctx.kSharp)
      (fun t => 1 - wvVec ctx.N ctx.A3 ctx.A4 (ctx.solver st.Wd st.z) ctx.kSharp t) h
  refine ⟨h1, ?_, ?_, h3, ?_⟩
  · rw [h1]
    show sigmoid ((matVec ctx.N ctx.A2 (ctx.solver st.Wd st.z) i) ^ 2
      - (matVec ctx.N ctx.A1 (ctx.solver st.Wd st.z) i) ^ 2) ctx.kSharp = _
    rw [show (matVec ctx.N ctx.A2 (ctx.solver st.Wd st.z) i) ^ 2
        - (matVec ctx.N ctx.A1 (ctx.solver st.Wd st.z) i) ^ 2
      = -((matVec ctx.N ctx.A1 (ctx.solver st.Wd st.z) i) ^ 2
        - (matVec ctx.N ctx.A2 (ctx.solver st.Wd st.z) i) ^ 2) from by ring,
      sigmoid_neg_eq]
  · rw [h2]
    show 1 - sigmoid ((matVec ctx.N ctx.A2 (ctx.solver st.Wd st.z) i) ^ 2
      - (matVec ctx.N ctx.A1 (ctx.solver st.Wd st.z) i) ^ 2) ctx.kSharp = _
    rw [show (matVec ctx.N ctx.A1 (ctx.solver st.Wd st.z) i) ^ 2
        - (matVec ctx.N ctx.A2 (ctx.solver st.Wd st.z) i) ^ 2
      = -((matVec ctx.N ctx.A2 (ctx.solver st.Wd st.z) i) ^ 2
        - (matVec ctx.N ctx.A1 (ctx.solver st.Wd st.z) i) ^ 2) from by ring,
      sigmoid_neg_eq]
  · rw [h4]
    show 1 - sigmoid ((matVec ctx.N ctx.A4 (ctx.solver st.Wd st.z) i) ^ 2
      - (matVec ctx.N ctx.A3 (ctx.solver st.Wd st.z) i) ^ 2) ctx.kSharp = _
    rw [show (matVec ctx.N ctx.A3 (ctx.solver st.Wd st.z) i) ^ 2
        - (matVec ctx.N ctx.A4 (ctx.solver st.Wd st.z) i) ^ 2
      = -((matVec ctx.N ctx.A4 (ctx.solver st.Wd st.z) i) ^ 2
        - (matVec ctx.N ctx.A3 (ctx.solver st.Wd st.z) i) ^ 2) from by ring,
      sigmoid_neg_eq]

/-- Witness for the amended C1 at a concrete context. -/
theorem c1_witness :
    (iterStep ⟨1, fun _ _ => 0, fun _ _ => 0, fun _ _ => 0, fun _ _ => 0,
        fun _ _ => 0, fun _ => 0, 2, 1 / 10000, zeroSolver⟩
      ⟨fun _ => 0, w0diag, 0, []⟩).Wd 0
      = sigmoid ((matVec 1 (fun _ _ => (0 : ℝ)) (zeroSolver w0diag (fun _ => 0)) 0) ^ 2
          - (matVec 1 (fun _ _ => (0 : ℝ)) (zeroSolver w0diag (fun _ => 0)) 0) ^ 2) 2 :=
  (c1_forward_weight ⟨1, fun _ _ => 0, fun _ _ => 0, fun _ _ => 0, fun _ _ => 0,
      fun _ _ => 0, fun _ => 0, 2, 1 / 10000, zeroSolver⟩
    ⟨fun _ => 0, w0diag, 0, []⟩ (by norm_num)).1

/-- C1 counterexample: on the full 2 by 1 mask with the flat normal map, the
weight applied to the forward block at pixel 0 is not
sigmoid(dp^2 - du^2, k): the code applies sigmoid(du^2 - dp^2, k). -/
theorem c1_counterexample :
    updateWdiag (numPixel (fullMask 2 1))
        (A1mat ℝ (fullMask 2 1) (nmFlat ℝ) none 1)
        (A2mat ℝ (fullMask 2 1) (nmFlat ℝ) none 1)
        (A3mat ℝ (fullMask 2 1) (nmFlat ℝ) none 1)
        (A4mat ℝ (fullMask 2 1) (nmFlat ℝ) none 1)
        (zStep01 ℝ) 2 0
      ≠ sigmoid ((matVec (numPixel (fullMask 2 1))
            (A1mat ℝ (fullMask 2 1) (nmFlat ℝ) none 1) (zStep01 ℝ) 0) ^ 2
          - (matVec (numPixel (fullMask 2 1))
            (A2mat ℝ (fullMask 2 1) (nmFlat ℝ) none 1) (zStep01 ℝ) 0) ^ 2) 2 := by
  have hN : numPixel (fullMask 2 1) = 2 := by decide
  have hmat0 : mAt (fullMask 2 1) (0, 0).1 (0, 0).2 = true := by decide
  have hp0 : pixelIdx (fullMask 2 1) (0, 0) = 0 := by decide
  have hp1 : pixelIdx (fullMask 2 1) (1, 0) = 1 := by decide
  have hnz0 : nzUVec ℝ (fullMask 2 1) (nmFlat ℝ) none 0 = 1 := by
    rw [← hp0]
    show nzVec ℝ (fullMask 2 1) (nmFlat ℝ) (pixelIdx (fullMask 2 1) (0, 0)) = 1
    unfold nzVec
    rw [gatherVec_pixelIdx _ hmat0]
    have hc : nmFlat ℝ 0 0 2 = -1 := by simp [nmFlat]
    rw [show nmFlat ℝ (0, 0).1 (0, 0).2 2 = nmFlat ℝ 0 0 2 from rfl, hc]
    norm_num
  have hvp0 : ∀ c, dVerticalPos ℝ (fullMask 2 1) 1 0 c = 0 := by
    intro c
    rw [← hp0]
    exact dVerticalPos_row_zero (fullMask 2 1) 1
      (no_row_of_not_qual (fun q hq => (hasTopMask_elim hq).1) hmat0 (by decide)) c
  have hvn0 : ∀ c, dVerticalNeg ℝ (fullMask 2 1) 1 0 c
      = (if 1 = c then -1 / 1 else 0) + (if 0 = c then 1 / 1 else 0) := by
    intro c
    rw [← hp0, dVerticalNeg_row (fullMask 2 1) 1 (p := (0, 0)) (by decide) c]
    rw [show pixelIdx (fullMask 2 1) ((0, 0).1 + 1, (0, 0).2)
      = pixelIdx (fullMask 2 1) (1, 0) from rfl, hp1, hp0]
  have hA1z : matVec (numPixel (fullMask 2 1))
      (A1mat ℝ (fullMask 2 1) (nmFlat ℝ) none 1) (zStep01 ℝ) 0 = 0 := by
    rw [hN]
    unfold matVec
    rw [Finset.sum_range_succ, Finset.sum_range_succ, Finset.sum_range_zero]
    unfold A1mat diagMul Dup
    rw [hvp0 0, hvp0 1]
    ring
  have hA2z : matVec (numPixel (fullMask 2 1))
      (A2mat ℝ (fullMask 2 1) (nmFlat ℝ) none 1) (zStep01 ℝ) 0 = -1 := by
    rw [hN]
    unfold matVec
    rw [Finset.sum_range_succ, Finset.sum_range_succ, Finset.sum_range_zero]
    unfold A2mat diagMul Dun
    rw [hvn0 0, hvn0 1, hnz0]
    unfold zStep01
    norm_num
  rw [hN]
  have hblock : updateWdiag 2
      (A1mat ℝ (fullMask 2 1) (nmFlat ℝ) none 1)
      (A2mat ℝ (fullMask 2 1) (nmFlat ℝ) none 1)
      (A3mat ℝ (fullMask 2 1) (nmFlat ℝ) none 1)
      (A4mat ℝ (fullMask 2 1) (nmFlat ℝ) none 1) (zStep01 ℝ) 2 0
      = wuVec 2 (A1mat ℝ (fullMask 2 1) (nmFlat ℝ) none 1)
          (A2mat ℝ (fullMask 2 1) (nmFlat ℝ) none 1) (zStep01 ℝ) 2 0 :=
    concat4_block1 2 _ _ _ _ (by norm_num)
  rw [hblock]
  unfold wuVec
  rw [show matVec 2 (A2mat ℝ (fullMask 2 1) (nmFlat ℝ) none 1) (zStep01 ℝ) 0
    = matVec (numPixel (fullMask 2 1)) (A2mat ℝ (fullMask 2 1) (nmFlat ℝ) none 1)
      (zStep01 ℝ) 0 from by rw [hN], hA2z]
  rw [show matVec 2 (A1mat ℝ (fullMask 2 1) (nmFlat ℝ) none 1) (zStep01 ℝ) 0
    = matVec (numPixel (fullMask 2 1)) (A1mat ℝ (fullMask 2 1) (nmFlat ℝ) none 1)
      (zStep01 ℝ) 0 from by rw [hN], hA1z]
  norm_num
  exact (sigmoid_lt_sigmoid (by norm_num) (by norm_num : (-1 : ℝ) < 1)).ne'

/-! The run on a mask with zero valid pixels. -/

theorem irlsLoop_trace_zero (ctx : LoopCtx) (hN : ctx.N = 0) :
    ∀ (fuel : Nat) (st : IterState) (n : Nat), st.trace = List.replicate n 0 →
      ∃ k, k ≤ fuel ∧ (irlsLoop ctx fuel st).trace = List.replicate (n + k) 0 := by
  intro fuel
  induction fuel with
  | zero =>
      intro st n hst
      exact ⟨0, Nat.le_refl 0, by simpa using hst⟩
  | succ fuel ih =>
      intro st n hst
      rw [irlsLoop_succ]
      have he : (iterStep ctx st).energy = 0 := by
        show energyQF ctx.N ctx.A ctx.b _ _ = 0
        unfold energyQF
        rw [hN]
        simp
      have htr : (iterStep ctx st).trace = List.replicate (n + 1) 0 := by
        show st.trace ++ [(iterStep ctx st).energy] = _
        rw [he, hst, List.replicate_succ']
      split_ifs
      · exact ⟨1, by omega, htr⟩
      · obtain ⟨k, hk, htrace⟩ := ih (iterStep ctx st) (n + 1) htr
        refine ⟨k + 1, by omega, ?_⟩
        rw [htrace]
        congr 1
        omega

/-- C3 amended: bilateral_normal_integration performs no emptiness check on
the mask; with zero valid pixels the stacked system is empty, every computed
energy is 0, and the run proceeds to a defined result whose energy trace is
a list of zeros, rather than failing with an InvalidInput error. -/
theorem c3_empty_mask_proceeds (m : Mask) (nm : Nat → Nat → Fin 3 → ℝ)
    (Kopt : Option (Intrin ℝ)) (step kSharp tol : ℝ) (maxIter : Nat)
    (solver : (Nat → ℝ) → (Nat → ℝ) → Nat → ℝ) (hN : numPixel m = 0) :
    ∃ k, k ≤ maxIter
      ∧ (biniRun m nm Kopt step kSharp tol maxIter solver).trace
        = List.replicate k 0 := by
  have hctx : (biniCtx m nm Kopt step kSharp tol solver).N = 0 := hN
  obtain ⟨k, hk, htr⟩ := irlsLoop_trace_zero (biniCtx m nm Kopt step kSharp tol solver)
    hctx maxIter (biniInit (biniCtx m nm Kopt step kSharp tol solver)) 0 rfl
  refine ⟨k, hk, ?_⟩
  unfold biniRun
  simpa using htr

/-- Witness for the amended C3 at the empty mask. -/
theorem c3_witness :
    ∃ k, k ≤ 100
      ∧ (biniRun emptyMask (nmFlat ℝ) none 1 2 (1 / 10000) 100 zeroSolver).trace
        = List.replicate k 0 :=
  c3_empty_mask_proceeds emptyMask (nmFlat ℝ) none 1 2 (1 / 10000) 100 zeroSolver
    (by decide)

/-- C3 counterexample: on a mask with zero valid pixels the function
proceeds, runs the loop, and returns a defined state with energy trace [0];
no InvalidInput failure happens before or during the computation. -/
theorem c3_counterexample :
    numPixel emptyMask = 0
      ∧ (biniRun emptyMask (nmFlat ℝ) none 1 2 (1 / 10000) 100 zeroSolver).trace
        = [0] := by
  refine ⟨by decide, ?_⟩
  have hctx : (biniCtx emptyMask (nmFlat ℝ) none 1 2 (1 / 10000) zeroSolver).N = 0 := by
    show numPixel emptyMask = 0
    decide
  unfold biniRun
  rw [show (100 : Nat) = 99 + 1 from rfl, irlsLoop_succ]
  have he0 : (biniInit (biniCtx emptyMask (nmFlat ℝ) none 1 2 (1 / 10000)
      zeroSolver)).energy = 0 := by
    show energyQF _ _ _ _ _ = 0
    unfold energyQF
    rw [hctx]
    simp
  have he1 : (iterStep (biniCtx emptyMask (nmFlat ℝ) none 1 2 (1 / 10000) zeroSolver)
      (biniInit (biniCtx emptyMask (nmFlat ℝ) none 1 2 (1 / 10000)
        zeroSolver))).energy = 0 := by
    show energyQF _ _ _ _ _ = 0
    unfold energyQF
    rw [hctx]
    simp
  have hcond : relEnergy
      (biniInit (biniCtx emptyMask (nmFlat ℝ) none 1 2 (1 / 10000) zeroSolver)).energy
      (iterStep (biniCtx emptyMask (nmFlat ℝ) none 1 2 (1 / 10000) zeroSolver)
        (biniInit (biniCtx emptyMask (nmFlat ℝ) none 1 2 (1 / 10000)
          zeroSolver))).energy
      < (biniCtx emptyMask (nmFlat ℝ) none 1 2 (1 / 10000) zeroSolver).tol := by
    rw [he0, he1]
    unfold relEnergy
    show |(0 : ℝ) - 0| / 0 < 1 / 10000
    norm_num
  rw [if_pos hcond]
  show (biniInit (biniCtx emptyMask (nmFlat ℝ) none 1 2 (1 / 10000) zeroSolver)).trace
    ++ [(iterStep (biniCtx emptyMask (nmFlat ℝ) none 1 2 (1 / 10000) zeroSolver)
      (biniInit (biniCtx emptyMask (nmFlat ℝ) none 1 2 (1 / 10000)
        zeroSolver))).energy] = [0]
  rw [he1]
  rfl

/-! Full characterization of the outer loop: the number of performed
iterations, the collected energy trace, and the exact stopping condition. -/

theorem irlsLoop_characterization (ctx : LoopCtx) :
    ∀ (fuel : Nat) (st : IterState),
      ∃ mIt : Nat, mIt ≤ fuel
        ∧ irlsLoop ctx fuel st = (iterStep ctx)^[mIt] st
        ∧ (irlsLoop ctx fuel st).trace
            = st.trace ++ (List.range mIt).map
              (fun j => ((iterStep ctx)^[j + 1] st).energy)
        ∧ (fuel ≠ 0 → 1 ≤ mIt)
        ∧ (∀ j, j + 1 < mIt →
            ¬ relEnergy ((iterStep ctx)^[j] st).energy
              ((iterStep ctx)^[j + 1] st).energy < ctx.tol)
        ∧ (mIt < fuel →
            relEnergy ((iterStep ctx)^[mIt - 1] st).energy
              ((iterStep ctx)^[mIt] st).energy < ctx.tol) := by
  intro fuel
  induction fuel with
  | zero =>
      intro st
      refine ⟨0, Nat.le_refl 0, rfl,
        by rw [show irlsLoop ctx 0 st = st from rfl]; simp,
        fun h => absurd rfl h, ?_, ?_⟩
      · intro j hj
        exact absurd hj (by omega)
      · intro h
        exact absurd h (by omega)
  | succ fuel ih =>
      intro st
      by_cases hconv : relEnergy st.energy (iterStep ctx st).energy < ctx.tol
      · refine ⟨1, by omega, ?_, ?_, fun _ => Nat.le_refl 1, ?_, ?_⟩
        · rw [irlsLoop_succ, if_pos hconv, Function.iterate_one]
        · rw [irlsLoop_succ, if_pos hconv]
          show st.trace ++ [(iterStep ctx st).energy] = _
          congr 1
        · intro j hj
          exact absurd hj (by omega)
        · intro _
          show relEnergy ((iterStep ctx)^[1 - 1] st).energy
            ((iterStep ctx)^[1] st).energy < ctx.tol
          rw [show (1 : Nat) - 1 = 0 from rfl, Function.iterate_zero_apply,
            Function.iterate_one]
          exact hconv
      · obtain ⟨mIt, hm1, hm2, hm3, hm4, hm5, hm6⟩ := ih (iterStep ctx st)
        refine ⟨mIt + 1, by omega, ?_, ?_, fun _ => by omega, ?_, ?_⟩
        · rw [irlsLoop_succ, if_neg hconv, hm2, ← Function.iterate_succ_apply]
        · rw [irlsLoop_succ, if_neg hconv, hm3]
          show (st.trace ++ [(iterStep ctx st).energy]) ++ _ = _
          rw [List.append_assoc]
          congr 1
          rw [List.range_succ_eq_map, List.map_cons, List.map_map]
          congr 1
        · intro j hj
          cases j with
          | zero =>
              intro hc
              apply hconv
              rw [Function.iterate_zero_apply, Function.iterate_one] at hc
              exact hc
          | succ j' =>
              intro hc
              apply hm5 j' (by omega)
              rw [show j' + 1 + 1 = (j' + 1) + 1 from rfl,
                Function.iterate_succ_apply, Function.iterate_succ_apply] at hc
              exact hc
        · intro hlt
          have hmlt : mIt < fuel := by omega
          have h1le : 1 ≤ mIt := hm4 (by omega)
          have hrel := hm6 hmlt
          show relEnergy ((iterStep ctx)^[mIt + 1 - 1] st).energy
            ((iterStep ctx)^[mIt + 1] st).energy < ctx.tol
          rw [show mIt + 1 - 1 = (mIt - 1) + 1 from by omega,
            Function.iterate_succ_apply, Function.iterate_succ_apply]
          exact hrel

/-- C8: the outer loop performs at most max_iter iterations, each completed
iteration appends exactly one energy value, namely the quadratic form
(A z - b)^T W (A z - b) of the fresh iterate, to the energy trace; the loop
stops early exactly when relative_energy < tol (it never stops earlier, and
whenever it stops before exhausting max_iter the last relative energy is
below tol); the only terminal states are convergence and exhaustion, and in
both the returned depth map reads the current z. -/
theorem c8_outer_loop (m : Mask) (nm : Nat → Nat → Fin 3 → ℝ)
    (Kopt : Option (Intrin ℝ)) (step kSharp tol : ℝ) (maxIter : Nat)
    (solver : (Nat → ℝ) → (Nat → ℝ) → Nat → ℝ) :
    (∀ st : IterState,
      (iterStep (biniCtx m nm Kopt step kSharp tol solver) st).energy
        = energyQF (biniCtx m nm Kopt step kSharp tol solver).N
            (biniCtx m nm Kopt step kSharp tol solver).A
            (biniCtx m nm Kopt step kSharp tol solver).b
            (iterStep (biniCtx m nm Kopt step kSharp tol solver) st).Wd
            (iterStep (biniCtx m nm Kopt step kSharp tol solver) st).z
      ∧ (iterStep (biniCtx m nm Kopt step kSharp tol solver) st).trace
        = st.trace ++ [(iterStep (biniCtx m nm Kopt step kSharp tol solver) st).energy])
    ∧ (∃ mIt : Nat, mIt ≤ maxIter
        ∧ biniRun m nm Kopt step kSharp tol maxIter solver
          = (iterStep (biniCtx m nm Kopt step kSharp tol solver))^[mIt]
              (biniInit (biniCtx m nm Kopt step kSharp tol solver))
        ∧ (biniRun m nm Kopt step kSharp tol maxIter solver).trace
          = (List.range mIt).map (fun j =>
              ((iterStep (biniCtx m nm Kopt step kSharp tol solver))^[j + 1]
                (biniInit (biniCtx m nm Kopt step kSharp tol solver))).energy)
        ∧ (maxIter ≠ 0 → 1 ≤ mIt)
        ∧ (∀ j, j + 1 < mIt →
            ¬ relEnergy
              ((iterStep (biniCtx m nm Kopt step kSharp tol solver))^[j]
                (biniInit (biniCtx m nm Kopt step kSharp tol solver))).energy
              ((iterStep (biniCtx m nm Kopt step kSharp tol solver))^[j + 1]
                (biniInit (biniCtx m nm Kopt step kSharp tol solver))).energy < tol)
        ∧ (mIt < maxIter →
            relEnergy
              ((iterStep (biniCtx m nm Kopt step kSharp tol solver))^[mIt - 1]
                (biniInit (biniCtx m nm Kopt step kSharp tol solver))).energy
              ((iterStep (biniCtx m nm Kopt step kSharp tol solver))^[mIt]
                (biniInit (biniCtx m nm Kopt step kSharp tol solver))).energy < tol))
    ∧ (∀ i j, mAt m i j = true →
        depthMapOut m (biniRun m nm Kopt step kSharp tol maxIter solver) i j
          = some ((biniRun m nm Kopt step kSharp tol maxIter solver).z
              (pixelIdx m (i, j)))) := by
  refine ⟨fun st => ⟨rfl, rfl⟩, ?_, ?_⟩
  · obtain ⟨mIt, h1, h2, h3, h4, h5, h6⟩ :=
      irlsLoop_characterization (biniCtx m nm Kopt step kSharp tol solver) maxIter
        (biniInit (biniCtx m nm Kopt step kSharp tol solver))
    refine ⟨mIt, h1, h2, ?_, h4, h5, h6⟩
    rw [show (biniRun m nm Kopt step kSharp tol maxIter solver).trace
      = (irlsLoop (biniCtx m nm Kopt step kSharp tol solver) maxIter
          (biniInit (biniCtx m nm Kopt step kSharp tol solver))).trace from rfl, h3]
    rfl
  · intro i j hij
    unfold depthMapOut
    rw [if_pos hij]

/-- Witness for C8 at a concrete one pixel run with one iteration. -/
theorem c8_witness :
    (∃ mIt : Nat, mIt ≤ 1
      ∧ (biniRun (fullMask 1 1) (nmFlat ℝ) none 1 2 (1 / 10000) 1 zeroSolver).trace
        = (List.range mIt).map (fun j =>
            ((iterStep (biniCtx (fullMask 1 1) (nmFlat ℝ) none 1 2 (1 / 10000)
                zeroSolver))^[j + 1]
              (biniInit (biniCtx (fullMask 1 1) (nmFlat ℝ) none 1 2 (1 / 10000)
                zeroSolver))).energy))
    ∧ depthMapOut (fullMask 1 1)
        (biniRun (fullMask 1 1) (nmFlat ℝ) none 1 2 (1 / 10000) 1 zeroSolver) 0 0
      = some ((biniRun (fullMask 1 1) (nmFlat ℝ) none 1 2 (1 / 10000) 1
          zeroSolver).z (pixelIdx (fullMask 1 1) (0, 0))) := by
  obtain ⟨_, ⟨mIt, h1, _, h3, _⟩, hdepth⟩ :=
    c8_outer_loop (fullMask 1 1) (nmFlat ℝ) none 1 2 (1 / 10000) 1 zeroSolver
  exact ⟨⟨mIt, h1, h3⟩, hdepth 0 0 (by decide)⟩

end BiNI
